import Mathlib

/-!
Verification development for the ptrui two-pane translation editor.

The Rust sources are shallowly embedded:
* the modal (vim-style) key interpreter `Vim::transition` from main.rs,
  generic over an abstract `BufferOps` interface standing for the external
  `tui_textarea::TextArea` collaborator;
* the language catalog, `fuzzy_score` and `filtered_language_indices`
  from languages.rs;
* the session level `App::handle_key`, `App::handle_picker_key`,
  `schedule_translation`, `maybe_translate` and `nativeize_both` from
  app.rs / main.rs, with the remote translator modelled as an oracle
  function and wall-clock instants as natural numbers.

Rust strings are modelled through `String.data` character lists so that
every definition evaluates inside the kernel; `str::find` works on byte
indices in the source, which coincides with character indices on the
ASCII candidate strings the code searches.
-/

namespace Ptrui

/-- Keys recognised by the embedded `tui_textarea::Input` (Key enum).
`CursorMove::End` is rendered `lineEnd` because `end` is a Lean keyword. -/
inductive VKey where
  | char (c : Char)
  | backspace
  | enter
  | left
  | right
  | up
  | down
  | tab
  | delete
  | home
  | lineEndKey
  | pageUp
  | pageDown
  | esc
  | fKey (n : Nat)
  | null
deriving DecidableEq, Repr

/-- The `tui_textarea::Input` record: key plus modifier flags. -/
structure Input where
  key : VKey
  ctrl : Bool
  alt : Bool
  shift : Bool
deriving DecidableEq, Repr

/-- Embeds `Input::default()`: the null key with no modifiers. -/
def Input.default : Input := ⟨.null, false, false, false⟩

/-- Editing modes of the per-pane vim state machine (`Mode` in main.rs). -/
inductive Mode where
  | normal
  | insert
  | visual
  | operator (c : Char)
deriving DecidableEq, Repr

/-- Result of one key dispatch (`Transition` in main.rs). -/
inductive Transition where
  | nop
  | mode (m : Mode)
  | pending (i : Input)
deriving DecidableEq, Repr

/-- Cursor motions of the external text area (`tui_textarea::CursorMove`).
`End` is rendered `lineEnd`. -/
inductive CursorMove where
  | back
  | down
  | up
  | forward
  | wordForward
  | wordEnd
  | wordBack
  | head
  | lineEnd
  | top
  | bottom
deriving DecidableEq, Repr

/-- Scrolling requests of the external text area (`tui_textarea::Scrolling`);
`delta r c` stands for the `(rows, cols)` tuple overload of `scroll`. -/
inductive Scrolling where
  | delta (rows : Int) (cols : Int)
  | halfPageDown
  | halfPageUp
  | pageDown
  | pageUp
deriving DecidableEq, Repr

/-- Abstract interface of the external `TextArea` collaborator over a state
type `σ`: exactly the operations `Vim::transition` and the session layer
invoke.  `from_text` models `TextArea::from(text.lines())` (whole-buffer
replace), `text` models `textarea_text` (lines joined by newlines) and
`default_textarea` models `TextArea::default()`. -/
structure BufferOps (σ : Type) where
  move_cursor : CursorMove → σ → σ
  cursor : σ → Nat × Nat
  start_selection : σ → σ
  cancel_selection : σ → σ
  copy : σ → σ
  cut : σ → σ
  paste : σ → σ
  undo : σ → σ
  redo : σ → σ
  delete_line_by_end : σ → σ
  delete_next_char : σ → σ
  insert_newline : σ → σ
  scroll : Scrolling → σ → σ
  input : Input → σ → σ
  text : σ → String
  from_text : String → σ
  default_textarea : σ

/-- Per-pane vim interpreter state (`struct Vim` in main.rs). -/
structure Vim where
  mode : Mode
  pending : Input
deriving DecidableEq, Repr

/-- Embeds `Vim::new(mode)`. -/
def Vim.new (mode : Mode) : Vim := ⟨mode, Input.default⟩

/-- True exactly when `matches!(mode, Mode::Operator(_))`. -/
def Mode.isOperator : Mode → Bool
  | .operator _ => true
  | _ => false

/-- The guard of the doubled-operator arm: the pressed character equals the
pending operator (`Input { key: Key::Char(c), .. } if self.mode ==
Mode::Operator(c)`). -/
def operator_repeat (k : VKey) (m : Mode) : Bool :=
  match k, m with
  | .char a, .operator b => a = b
  | _, _ => false

/-- The big `match input` inside `Vim::transition` for the
Normal/Visual/Operator modes, with the Rust arms checked in source order.
`some t` models an early `return t`; `none` models falling through the match
(so that the finalization step below runs). -/
def Vim.dispatch {σ : Type} (B : BufferOps σ) (v : Vim) (i : Input) (ta : σ) :
    Option Transition × σ :=
  if i.key = .char 'h' then (none, B.move_cursor .back ta)
  else if i.key = .char 'j' then (none, B.move_cursor .down ta)
  else if i.key = .char 'k' then (none, B.move_cursor .up ta)
  else if i.key = .char 'l' then (none, B.move_cursor .forward ta)
  else if i.key = .char 'w' then (none, B.move_cursor .wordForward ta)
  else if i.key = .char 'e' ∧ i.ctrl = false then
    let ta := B.move_cursor .wordEnd ta
    (none, if v.mode.isOperator then B.move_cursor .forward ta else ta)
  else if i.key = .char 'b' ∧ i.ctrl = false then (none, B.move_cursor .wordBack ta)
  else if i.key = .char '^' then (none, B.move_cursor .head ta)
  else if i.key = .char '$' then (none, B.move_cursor .lineEnd ta)
  else if i.key = .char 'D' then (some (.mode .normal), B.delete_line_by_end ta)
  else if i.key = .char 'C' then
    (some (.mode .insert), B.cancel_selection (B.delete_line_by_end ta))
  else if i.key = .char 'p' then (some (.mode .normal), B.paste ta)
  else if i.key = .char 'u' ∧ i.ctrl = false then (some (.mode .normal), B.undo ta)
  else if i.key = .char 'r' ∧ i.ctrl = true then (some (.mode .normal), B.redo ta)
  else if i.key = .char 'x' then (some (.mode .normal), B.delete_next_char ta)
  else if i.key = .char 'i' then (some (.mode .insert), B.cancel_selection ta)
  else if i.key = .char 'a' then
    (some (.mode .insert), B.move_cursor .forward (B.cancel_selection ta))
  else if i.key = .char 'A' then
    (some (.mode .insert), B.move_cursor .lineEnd (B.cancel_selection ta))
  else if i.key = .char 'o' then
    (some (.mode .insert), B.insert_newline (B.move_cursor .lineEnd ta))
  else if i.key = .char 'O' then
    (some (.mode .insert), B.move_cursor .up (B.insert_newline (B.move_cursor .head ta)))
  else if i.key = .char 'I' then
    (some (.mode .insert), B.move_cursor .head (B.cancel_selection ta))
  else if i.key = .char 'e' ∧ i.ctrl = true then (none, B.scroll (.delta 1 0) ta)
  else if i.key = .char 'y' ∧ i.ctrl = true then (none, B.scroll (.delta (-1) 0) ta)
  else if i.key = .char 'd' ∧ i.ctrl = true then (none, B.scroll .halfPageDown ta)
  else if i.key = .char 'u' ∧ i.ctrl = true then (none, B.scroll .halfPageUp ta)
  else if i.key = .char 'f' ∧ i.ctrl = true then (none, B.scroll .pageDown ta)
  else if i.key = .char 'b' ∧ i.ctrl = true then (none, B.scroll .pageUp ta)
  else if i.key = .char 'v' ∧ i.ctrl = false ∧ v.mode = .normal then
    (some (.mode .visual), B.start_selection ta)
  else if i.key = .char 'V' ∧ i.ctrl = false ∧ v.mode = .normal then
    (some (.mode .visual), B.move_cursor .lineEnd (B.start_selection (B.move_cursor .head ta)))
  else if (i.key = .esc ∨ (i.key = .char 'v' ∧ i.ctrl = false)) ∧ v.mode = .visual then
    (some (.mode .normal), B.cancel_selection ta)
  else if i.key = .char 'g' ∧ i.ctrl = false ∧ v.pending.key = .char 'g' ∧ v.pending.ctrl = false
    then (none, B.move_cursor .top ta)
  else if i.key = .char 'G' ∧ i.ctrl = false then (none, B.move_cursor .bottom ta)
  else if operator_repeat i.key v.mode ∧ i.ctrl = false then
    let ta := B.start_selection (B.move_cursor .head ta)
    let cursor := B.cursor ta
    let ta := B.move_cursor .down ta
    (none, if cursor = B.cursor ta then B.move_cursor .lineEnd ta else ta)
  else if i.key = .char 'y' ∧ i.ctrl = false ∧ v.mode = .normal then
    (some (.mode (.operator 'y')), B.start_selection ta)
  else if i.key = .char 'd' ∧ i.ctrl = false ∧ v.mode = .normal then
    (some (.mode (.operator 'd')), B.start_selection ta)
  else if i.key = .char 'c' ∧ i.ctrl = false ∧ v.mode = .normal then
    (some (.mode (.operator 'c')), B.start_selection ta)
  else if i.key = .char 'y' ∧ i.ctrl = false ∧ v.mode = .visual then
    (some (.mode .normal), B.copy (B.move_cursor .forward ta))
  else if i.key = .char 'd' ∧ i.ctrl = false ∧ v.mode = .visual then
    (some (.mode .normal), B.cut (B.move_cursor .forward ta))
  else if i.key = .char 'c' ∧ i.ctrl = false ∧ v.mode = .visual then
    (some (.mode .insert), B.cut (B.move_cursor .forward ta))
  else (some (.pending i), ta)

/-- The mandatory finalization after the dispatch match: `match self.mode`
applying the pending operator on fallthrough. -/
def Vim.finalize {σ : Type} (B : BufferOps σ) (m : Mode) (ta : σ) : Transition × σ :=
  match m with
  | .operator 'y' => (.mode .normal, B.copy ta)
  | .operator 'd' => (.mode .normal, B.cut ta)
  | .operator 'c' => (.mode .insert, B.cut ta)
  | _ => (.nop, ta)

/-- Embeds `Vim::transition` from main.rs: null keys are ignored, Insert mode is
handled separately, and the shared Normal/Visual/Operator table runs the
dispatch match followed by the operator finalization on fallthrough. -/
def Vim.transition {σ : Type} (B : BufferOps σ) (v : Vim) (i : Input) (ta : σ) :
    Transition × σ :=
  if i.key = .null then (.nop, ta)
  else
    match v.mode with
    | .insert =>
      if i.key = .esc ∨ (i.key = .char 'c' ∧ i.ctrl = true) then (.mode .normal, ta)
      else (.mode .insert, B.input i ta)
    | _ =>
      match Vim.dispatch B v i ta with
      | (some t, ta) => (t, ta)
      | (none, ta) => Vim.finalize B v.mode ta

/-- Embeds `App::update_vim_state` applied to a single `Vim` value: `Nop` keeps the
state, `Pending` records the unconsumed key, a mode change resets the pending
key to the default input. -/
def Vim.apply (v : Vim) (t : Transition) : Vim :=
  match t with
  | .nop => v
  | .pending i => { v with pending := i }
  | .mode m => { mode := m, pending := Input.default }

/-- Observable effects used by the tracing instance of `BufferOps`. -/
inductive BufOp where
  | move (m : CursorMove)
  | startSelection
  | cancelSelection
  | copyText
  | cutText
  | pasteText
  | undoEdit
  | redoEdit
  | deleteLineByEnd
  | deleteNextChar
  | insertNewline
  | scrollBy (s : Scrolling)
  | feed (i : Input)
  | setText (s : String)
deriving DecidableEq, Repr

/-- Tracing instance: the buffer state is the list of operations performed on
it, in order; the cursor is read off as the trace length. -/
def TraceOps : BufferOps (List BufOp) where
  move_cursor m t := t ++ [.move m]
  cursor t := (t.length, 0)
  start_selection t := t ++ [.startSelection]
  cancel_selection t := t ++ [.cancelSelection]
  copy t := t ++ [.copyText]
  cut t := t ++ [.cutText]
  paste t := t ++ [.pasteText]
  undo t := t ++ [.undoEdit]
  redo t := t ++ [.redoEdit]
  delete_line_by_end t := t ++ [.deleteLineByEnd]
  delete_next_char t := t ++ [.deleteNextChar]
  insert_newline t := t ++ [.insertNewline]
  scroll s t := t ++ [.scrollBy s]
  input i t := t ++ [.feed i]
  text _ := ""
  from_text s := [.setText s]
  default_textarea := []

/-- Text-only instance: the buffer state is just its joined text; cursor
motions are invisible at this granularity and literal insertion appends the
typed character. -/
def SimpleOps : BufferOps String where
  move_cursor _ s := s
  cursor _ := (0, 0)
  start_selection s := s
  cancel_selection s := s
  copy s := s
  cut s := s
  paste s := s
  undo s := s
  redo s := s
  delete_line_by_end s := s
  delete_next_char s := s
  insert_newline s := s
  scroll _ s := s
  input i s := match i.key with
    | .char c => s.push c
    | _ => s
  text s := s
  from_text s := s
  default_textarea := ""

example :
    Vim.transition TraceOps (Vim.new .normal) ⟨.char 'h', false, false, false⟩ [] =
      (.nop, [.move .back]) := by decide

example :
    Vim.transition TraceOps ⟨.operator 'y', Input.default⟩ ⟨.char 'h', false, false, false⟩ [] =
      (.mode .normal, [.move .back, .copyText]) := by decide

/-- A catalog entry (`struct Language` in languages.rs). -/
structure Language where
  name : String
  code : String
deriving DecidableEq, Repr

/-- The static language catalog `LANGUAGES`, in source order. -/
def LANGUAGES : List Language :=
  [⟨"English", "EN"⟩, ⟨"Spanish", "ES"⟩, ⟨"French", "FR"⟩, ⟨"German", "DE"⟩,
   ⟨"Italian", "IT"⟩, ⟨"Portuguese", "PT"⟩, ⟨"Dutch", "NL"⟩, ⟨"Polish", "PL"⟩,
   ⟨"Russian", "RU"⟩, ⟨"Japanese", "JA"⟩, ⟨"Chinese", "ZH"⟩, ⟨"Korean", "KO"⟩,
   ⟨"Swedish", "SV"⟩]

/-- Embeds `str::to_ascii_lowercase`, character by character (Lean's `Char.toLower`
performs exactly the ASCII mapping). -/
def to_ascii_lower (s : String) : String := ⟨s.data.map Char.toLower⟩

/-- Embeds `a.eq_ignore_ascii_case(b)`. -/
def eq_ignore_ascii_case (a b : String) : Bool := to_ascii_lower a = to_ascii_lower b

/-- Embeds `char::is_whitespace` (the Unicode White_Space property, as listed in the
Rust reference). -/
def rust_is_whitespace (c : Char) : Bool :=
  c = ' ' || c = '\t' || c = '\n' || c = '\r' || c.toNat = 0x0B || c.toNat = 0x0C ||
  c.toNat = 0x85 || c.toNat = 0xA0 || c.toNat = 0x1680 ||
  (0x2000 ≤ c.toNat && c.toNat ≤ 0x200A) ||
  c.toNat = 0x2028 || c.toNat = 0x2029 || c.toNat = 0x202F || c.toNat = 0x205F ||
  c.toNat = 0x3000

/-- Embeds `s.trim().is_empty()`: true exactly when every character is whitespace. -/
def trim_is_empty (s : String) : Bool := s.data.all rust_is_whitespace

/-- Embeds `find_language_index` from languages.rs (`Iterator::position`). -/
def find_language_index (code : String) : Option Nat :=
  LANGUAGES.findIdx? (fun language => eq_ignore_ascii_case language.code code)

/-- Embeds `LANGUAGES.get(index).unwrap_or(&LANGUAGES[0])`. -/
def languageAt (index : Nat) : Language :=
  (LANGUAGES.get? index).getD (LANGUAGES.get ⟨0, by decide⟩)

/-- Embeds `str::find(char)` on a character list: byte and character indices agree on
the ASCII candidates this code searches. -/
def find_char (needle : Char) : List Char → Option Nat
  | [] => none
  | c :: rest => if c = needle then some 0 else (find_char needle rest).map (· + 1)

/-- The loop body of `fuzzy_score`: greedily locate each query character in
the remaining candidate, accumulating the skipped distances; `None` when some
character cannot be found. -/
def fuzzy_score_aux : List Char → List Char → Option Nat
  | [], _ => some 0
  | needle :: rest, candidate =>
    match find_char needle candidate with
    | some found =>
      match fuzzy_score_aux rest (candidate.drop (found + 1)) with
      | some score => some (found + score)
      | none => none
    | none => none

/-- Embeds `fuzzy_score` from languages.rs: the query is ASCII-lowercased, then
matched greedily against the candidate. -/
def fuzzy_score (query candidate : String) : Option Nat :=
  fuzzy_score_aux (to_ascii_lower query).data candidate.data

/-- The lowercased `"displayName code"` candidate string built inside
`filtered_language_indices`. -/
def language_candidate (language : Language) : String :=
  to_ascii_lower language.name ++ " " ++ to_ascii_lower language.code

/-- Byte-lexicographic `str::cmp` as a ≤ test; on the ASCII names in the
catalog this equals character-lexicographic order. -/
def lex_le : List Char → List Char → Bool
  | [], _ => true
  | _ :: _, [] => false
  | x :: xs, y :: ys => if x = y then lex_le xs ys else decide (x < y)

/-- The comparator passed to `sort_by`: ascending score, ties broken by the
display name of the indexed catalog entry. -/
def match_order (a b : Nat × Nat) : Prop :=
  a.1 < b.1 ∨ (a.1 = b.1 ∧ lex_le (languageAt a.2).name.data (languageAt b.2).name.data = true)

instance match_order_decidable : DecidableRel match_order := fun _ _ =>
  inferInstanceAs (Decidable (_ ∨ _))

/-- The `matches` vector built by the enumeration loop inside
`filtered_language_indices`: (score, index) pairs of the catalog entries the
query fuzzy-matches. -/
def language_matches (query : String) : List (Nat × Nat) :=
  LANGUAGES.enum.filterMap (fun p =>
    (fuzzy_score query (language_candidate p.2)).map (fun score => (score, p.1)))

/-- Embeds `filtered_language_indices` from languages.rs.  `slice::sort_by` is a
stable sort by a total comparator; with all sort keys distinct it computes the
same list as insertion sort by the same comparator. -/
def filtered_language_indices (query : String) : List Nat :=
  if trim_is_empty query then List.range LANGUAGES.length
  else ((language_matches query).insertionSort match_order).map (fun m => m.2)

/-- Spec-side predicate: every character of `q` occurs, in left-to-right
order, somewhere in `c` (subsequence match). -/
def isSubseq : List Char → List Char → Bool
  | [], _ => true
  | _ :: _, [] => false
  | a :: as, b :: bs => if a = b then isSubseq as bs else isSubseq (a :: as) bs

/-- Spec-side scoring relation, written from the specification text: each
query character is found at the first occurrence after the previous match, and
the score sums the characters skipped before each hit. -/
inductive SkipScore : List Char → List Char → Nat → Prop
  | nil (c : List Char) : SkipScore [] c 0
  | cons (n : Char) (ns c₁ c₂ : List Char) (s : Nat) (hn : n ∉ c₁)
      (h : SkipScore ns c₂ s) : SkipScore (n :: ns) (c₁ ++ n :: c₂) (c₁.length + s)

example : filtered_language_indices "" = List.range 13 := by decide
example : filtered_language_indices "ger" = [3] := by decide
example : filtered_language_indices " " = List.range 13 := by decide
example : fuzzy_score "ger" (language_candidate ⟨"German", "DE"⟩) = some 0 := by decide
example : find_language_index "EN" = some 0 := by decide
example : find_language_index "es" = some 1 := by decide

/-- Embeds `crossterm::event::KeyCode`, restricted to the constructors the program
matches on; every other code is `other` (mapped to the null key). -/
inductive KeyCode where
  | char (c : Char)
  | backspace
  | enter
  | left
  | right
  | up
  | down
  | tab
  | delete
  | home
  | lineEndKey
  | pageUp
  | pageDown
  | esc
  | fKey (n : Nat)
  | other
deriving DecidableEq, Repr

/-- Modifier flags of a `crossterm` key event. -/
structure KeyModifiers where
  ctrl : Bool
  alt : Bool
  shift : Bool
deriving DecidableEq, Repr

/-- Embeds `crossterm::event::KeyEventKind`. -/
inductive KeyEventKind where
  | press
  | repeatKind
  | release
deriving DecidableEq, Repr

/-- A `crossterm` key event. -/
structure KeyEvent where
  code : KeyCode
  modifiers : KeyModifiers
  kind : KeyEventKind
deriving DecidableEq, Repr

/-- Embeds `textarea_input_from_key` from textarea.rs / main.rs. -/
def textarea_input_from_key (key : KeyEvent) : Input :=
  let key_code : VKey :=
    match key.code with
    | .char c => .char c
    | .backspace => .backspace
    | .enter => .enter
    | .left => .left
    | .right => .right
    | .up => .up
    | .down => .down
    | .tab => .tab
    | .delete => .delete
    | .home => .home
    | .lineEndKey => .lineEndKey
    | .pageUp => .pageUp
    | .pageDown => .pageDown
    | .esc => .esc
    | .fKey n => .fKey n
    | .other => .null
  ⟨key_code, key.modifiers.ctrl, key.modifiers.alt, key.modifiers.shift⟩

/-- Which pane currently accepts keyboard input (`ActiveSide`). -/
inductive ActiveSide where
  | left
  | right
deriving DecidableEq, Repr

/-- Action requested from the main loop (`AppAction`). -/
inductive AppAction where
  | none
  | quit
  | nativeizeBoth
deriving DecidableEq, Repr

/-- Transient language picker state (`struct LanguagePicker`). -/
structure LanguagePicker where
  side : ActiveSide
  query : String
  selected : Nat
deriving DecidableEq, Repr

/-- The session state (`struct App`), over an abstract textarea state `σ`;
`Instant` timestamps are modelled as natural numbers. -/
structure AppState (σ : Type) where
  active : ActiveSide
  input : σ
  output : σ
  left_vim : Vim
  right_vim : Vim
  left_language : Nat
  right_language : Nat
  pending_translation : Bool
  last_edit : Option Nat
  error : Option String
  picker : Option LanguagePicker
deriving DecidableEq

/-- Embeds `App::new()`. -/
def App.new {σ : Type} (B : BufferOps σ) : AppState σ where
  active := .left
  input := B.default_textarea
  output := B.default_textarea
  left_vim := Vim.new .normal
  right_vim := Vim.new .normal
  left_language := (find_language_index "EN").getD 0
  right_language := (find_language_index "ES").getD 1
  pending_translation := false
  last_edit := none
  error := none
  picker := none

/-- The remote translation endpoint, an external collaborator: given
(text, source language code, target language code) it either returns the
translated text or a failure description (`translate_via_api`). -/
def Translator : Type := String → String → String → Except String String

/-- One call made to the translator, recorded so that theorems can speak
about which requests a step performs. -/
structure TransCall where
  text : String
  source_lang : String
  target_lang : String
deriving DecidableEq, Repr

/-- Embeds `TRANSLATION_DEBOUNCE` (350 ms), in milliseconds. -/
def TRANSLATION_DEBOUNCE : Nat := 350

/-- Embeds `schedule_translation`: arm the debounced translation cycle. -/
def schedule_translation {σ : Type} (now : Nat) (app : AppState σ) : AppState σ :=
  { app with
      pending_translation := true
      last_edit := some now
      error := none }

/-- Embeds `App::open_picker`. -/
def App.open_picker {σ : Type} (side : ActiveSide) (app : AppState σ) : AppState σ :=
  { app with picker := some ⟨side, "", 0⟩ }

/-- Embeds `String::pop` with the popped character discarded. -/
def string_pop (s : String) : String := ⟨s.data.dropLast⟩

/-- Embeds `char::is_control` (the Unicode Cc category: C0 controls, DEL and C1
controls). -/
def rust_is_control (c : Char) : Bool :=
  c.toNat < 0x20 || (0x7F ≤ c.toNat && c.toNat ≤ 0x9F)

/-- Embeds `App::handle_picker_key`, with the Rust match arms checked in source
order. -/
def App.handle_picker_key {σ : Type} (now : Nat) (key : KeyEvent) (app : AppState σ) :
    AppState σ × AppAction :=
  match app.picker with
  | none => (app, .none)
  | some picker =>
    if key.code = .char 'c' ∧ key.modifiers.ctrl = true then (app, .quit)
    else match key.code with
    | .esc => ({ app with picker := none }, .none)
    | .enter =>
      let indices := filtered_language_indices picker.query
      (match indices.get? picker.selected with
       | some language_index =>
         let app :=
           match picker.side with
           | .left => { app with left_language := language_index }
           | .right => { app with right_language := language_index }
         { schedule_translation now app with picker := none }
       | none => { app with picker := none }, .none)
    | .up =>
      (if picker.selected > 0 then
        { app with picker := some { picker with selected := picker.selected - 1 } }
       else app, .none)
    | .down =>
      let indices := filtered_language_indices picker.query
      (if ¬indices.isEmpty ∧ picker.selected + 1 < indices.length then
        { app with picker := some { picker with selected := picker.selected + 1 } }
       else app, .none)
    | .backspace =>
      ({ app with picker := some { picker with query := string_pop picker.query, selected := 0 } },
       .none)
    | .char c =>
      (if ¬rust_is_control c = true ∧ picker.query.utf8ByteSize < 32 then
        { app with picker := some { picker with query := picker.query.push c, selected := 0 } }
       else app, .none)
    | _ => (app, .none)

/-- Embeds `App::update_vim_state`. -/
def App.update_vim_state {σ : Type} (side : ActiveSide) (t : Transition) (app : AppState σ) :
    AppState σ :=
  match side with
  | .left => { app with left_vim := app.left_vim.apply t }
  | .right => { app with right_vim := app.right_vim.apply t }

/-- Embeds `App::handle_key`, with the Rust match arms checked in source order:
non-press events are ignored, an open picker captures every key, a handful of
control chords are intercepted, and everything else is fed to the active
pane's vim interpreter; if that changed the pane's text, a translation is
scheduled. -/
def App.handle_key {σ : Type} (B : BufferOps σ) (now : Nat) (key : KeyEvent)
    (app : AppState σ) : AppState σ × AppAction :=
  if key.kind ≠ .press then (app, .none)
  else if app.picker.isSome then App.handle_picker_key now key app
  else if key.code = .char 'c' ∧ key.modifiers.ctrl = true then (app, .quit)
  else if key.code = .char 'h' ∧ key.modifiers.ctrl = true then
    (App.open_picker .left app, .none)
  else if key.code = .char 'l' ∧ key.modifiers.ctrl = true then
    (App.open_picker .right app, .none)
  else if key.code = .char 'n' ∧ key.modifiers.ctrl = true then (app, .nativeizeBoth)
  else if key.code = .char 'r' ∧ key.modifiers.ctrl = true then
    let app :=
      match app.active with
      | .left => { app with input := B.default_textarea }
      | .right => { app with output := B.default_textarea }
    (schedule_translation now app, .none)
  else if key.code = .tab then
    ({ app with active := match app.active with | .left => .right | .right => .left }, .none)
  else if key.code = .backspace ∧ key.modifiers.ctrl = true then
    (App.open_picker .left app, .none)
  else
    let i := textarea_input_from_key key
    match app.active with
    | .left =>
      let before := B.text app.input
      let (transition, ta) := Vim.transition B app.left_vim i app.input
      let app := App.update_vim_state .left transition { app with input := ta }
      (if before = B.text app.input then app else schedule_translation now app, .none)
    | .right =>
      let before := B.text app.output
      let (transition, ta) := Vim.transition B app.right_vim i app.output
      let app := App.update_vim_state .right transition { app with output := ta }
      (if before = B.text app.output then app else schedule_translation now app, .none)

/-- The source text selected at dispatch time (`source_text` in
`maybe_translate`). -/
def active_source_text {σ : Type} (B : BufferOps σ) (app : AppState σ) : String :=
  match app.active with
  | .left => B.text app.input
  | .right => B.text app.output

/-- The source language code selected at dispatch time. -/
def active_source_lang {σ : Type} (app : AppState σ) : String :=
  match app.active with
  | .left => (languageAt app.left_language).code
  | .right => (languageAt app.right_language).code

/-- The target language code selected at dispatch time. -/
def active_target_lang {σ : Type} (app : AppState σ) : String :=
  match app.active with
  | .left => (languageAt app.right_language).code
  | .right => (languageAt app.left_language).code

/-- Writing `target_slot` through `set_textarea_text` (whole-buffer
replace of the pane opposite the active one). -/
def write_target {σ : Type} (B : BufferOps σ) (app : AppState σ) (text : String) :
    AppState σ :=
  match app.active with
  | .left => { app with output := B.from_text text }
  | .right => { app with input := B.from_text text }

/-- Embeds `maybe_translate` from app.rs / main.rs, returning the successor state
together with the list of translator calls performed during the step. -/
def maybe_translate {σ : Type} (B : BufferOps σ) (tr : Translator) (now : Nat)
    (app : AppState σ) : AppState σ × List TransCall :=
  if ¬app.pending_translation = true then (app, [])
  else match app.last_edit with
  | none => (app, [])
  | some last_edit =>
    if now - last_edit < TRANSLATION_DEBOUNCE then (app, [])
    else
      let source_text := active_source_text B app
      let source_lang := active_source_lang app
      let target_lang := active_target_lang app
      if trim_is_empty source_text then
        ({ write_target B app "" with pending_translation := false }, [])
      else
        let call : TransCall := ⟨source_text, source_lang, target_lang⟩
        match tr source_text source_lang target_lang with
        | .ok translated =>
          ({ write_target B app translated with
              error := none
              pending_translation := false }, [call])
        | .error message =>
          ({ app with error := some message, pending_translation := false }, [call])

/-- Embeds `nativeize_both` from app.rs / main.rs, returning the successor state
together with the list of translator calls performed. -/
def nativeize_both {σ : Type} (B : BufferOps σ) (tr : Translator) (app : AppState σ) :
    AppState σ × List TransCall :=
  let left_lang := languageAt app.left_language
  let right_lang := languageAt app.right_language
  let left_source := B.text app.input
  let right_source := B.text app.output
  if trim_is_empty left_source ∧ trim_is_empty right_source then (app, [])
  else
    let (new_right, error1, calls1) :=
      if ¬trim_is_empty left_source = true then
        match tr left_source left_lang.code right_lang.code with
        | .ok translated =>
          (translated, (none : Option String), [(⟨left_source, left_lang.code, right_lang.code⟩ : TransCall)])
        | .error message =>
          (right_source, some message, [(⟨left_source, left_lang.code, right_lang.code⟩ : TransCall)])
      else (right_source, none, [])
    let (new_left, error_message, calls) :=
      if ¬trim_is_empty right_source = true then
        match tr right_source right_lang.code left_lang.code with
        | .ok translated =>
          (translated, error1, calls1 ++ [(⟨right_source, right_lang.code, left_lang.code⟩ : TransCall)])
        | .error message =>
          (left_source, (if error1.isNone then some message else error1),
           calls1 ++ [(⟨right_source, right_lang.code, left_lang.code⟩ : TransCall)])
      else (left_source, error1, calls1)
    ({ app with
        input := B.from_text new_left
        output := B.from_text new_right
        error := error_message
        pending_translation := false
        last_edit := none }, calls)

/-- One iteration of the `run_app` event branch: dispatch the key, then run
the action it requested (only `NativeizeBoth` mutates further state). -/
def handle_event {σ : Type} (B : BufferOps σ) (tr : Translator) (now : Nat)
    (key : KeyEvent) (app : AppState σ) : AppState σ :=
  match App.handle_key B now key app with
  | (app, .nativeizeBoth) => (nativeize_both B tr app).fst
  | (app, _) => app

/-- Session states reachable by the `run_app` loop: the initial state,
key events (followed by their requested action) at arbitrary times with
arbitrary translator behaviour, and debounce polls. -/
inductive Reachable {σ : Type} (B : BufferOps σ) : AppState σ → Prop where
  | init : Reachable B (App.new B)
  | key (app : AppState σ) (k : KeyEvent) (now : Nat) (tr : Translator)
      (h : Reachable B app) : Reachable B (handle_event B tr now k app)
  | tick (app : AppState σ) (now : Nat) (tr : Translator)
      (h : Reachable B app) : Reachable B (maybe_translate B tr now app).fst

/-! ### Theorems about the modal editor -/

theorem dispatch_null_fst {σ : Type} (B : BufferOps σ) (v : Vim) (i : Input) (ta : σ)
    (h : i.key = .null) : (Vim.dispatch B v i ta).fst = some (.pending i) := by
  obtain ⟨key, ctrl, alt, shift⟩ := i
  cases h
  simp [Vim.dispatch, operator_repeat]

/-- Claim C1: while a pane is in `OperatorPending(op)` for `op` one of
yank/delete/change, any key whose dispatch through the motion/command table
falls through (no early transition) is finalized by applying the operator to
the buffer state the dispatch produced — `copy` for yank, `cut` for
delete/change — and the resulting transition is to Normal for yank/delete and
to Insert for change. -/
theorem operator_pending_finalization {σ : Type} (B : BufferOps σ) (op : Char)
    (p : Input) (i : Input) (ta : σ)
    (hop : op = 'y' ∨ op = 'd' ∨ op = 'c')
    (hfall : (Vim.dispatch B ⟨.operator op, p⟩ i ta).fst = none) :
    Vim.transition B ⟨.operator op, p⟩ i ta =
      if op = 'c' then
        (.mode .insert, B.cut (Vim.dispatch B ⟨.operator op, p⟩ i ta).snd)
      else if op = 'y' then
        (.mode .normal, B.copy (Vim.dispatch B ⟨.operator op, p⟩ i ta).snd)
      else
        (.mode .normal, B.cut (Vim.dispatch B ⟨.operator op, p⟩ i ta).snd) := by
  have hnull : ¬i.key = .null := by
    intro h
    rw [dispatch_null_fst B _ i ta h] at hfall
    exact Option.noConfusion hfall
  cases hdis : Vim.dispatch B ⟨.operator op, p⟩ i ta with
  | mk r ta2 =>
    rw [hdis] at hfall
    dsimp only at hfall
    subst hfall
    have key : Vim.transition B ⟨.operator op, p⟩ i ta = Vim.finalize B (Mode.operator op) ta2 := by
      unfold Vim.transition
      rw [if_neg hnull, hdis]
    rw [key]
    rcases hop with h | h | h <;> subst h <;> rfl

theorem operator_pending_finalization_witness :
    (('y' : Char) = 'y' ∨ ('y' : Char) = 'd' ∨ ('y' : Char) = 'c') ∧
    (Vim.dispatch TraceOps ⟨.operator 'y', Input.default⟩ ⟨.char 'h', false, false, false⟩
      []).fst = none ∧
    Vim.transition TraceOps ⟨.operator 'y', Input.default⟩ ⟨.char 'h', false, false, false⟩
      [] = (.mode .normal, [.move .back, .copyText]) :=
  ⟨Or.inl rfl, by decide, by
    have h := operator_pending_finalization TraceOps 'y' Input.default
      ⟨.char 'h', false, false, false⟩ [] (Or.inl rfl) (by decide)
    simpa using h⟩

set_option maxHeartbeats 1600000 in
theorem dispatch_cases {σ : Type} (B : BufferOps σ) (v : Vim) (i : Input) (ta : σ) :
    (Vim.dispatch B v i ta).fst = some (.pending i) ∨
    (Vim.dispatch B v i ta).fst = none ∨
    (∃ m, (Vim.dispatch B v i ta).fst = some (.mode m)) := by
  unfold Vim.dispatch
  by_cases h1 : i.key = VKey.char 'h'
  · rw [if_pos h1]; exact Or.inr (Or.inl rfl)
  rw [if_neg h1]
  by_cases h2 : i.key = VKey.char 'j'
  · rw [if_pos h2]; exact Or.inr (Or.inl rfl)
  rw [if_neg h2]
  by_cases h3 : i.key = VKey.char 'k'
  · rw [if_pos h3]; exact Or.inr (Or.inl rfl)
  rw [if_neg h3]
  by_cases h4 : i.key = VKey.char 'l'
  · rw [if_pos h4]; exact Or.inr (Or.inl rfl)
  rw [if_neg h4]
  by_cases h5 : i.key = VKey.char 'w'
  · rw [if_pos h5]; exact Or.inr (Or.inl rfl)
  rw [if_neg h5]
  by_cases h6 : i.key = VKey.char 'e' ∧ i.ctrl = false
  · rw [if_pos h6]; exact Or.inr (Or.inl rfl)
  rw [if_neg h6]
  by_cases h7 : i.key = VKey.char 'b' ∧ i.ctrl = false
  · rw [if_pos h7]; exact Or.inr (Or.inl rfl)
  rw [if_neg h7]
  by_cases h8 : i.key = VKey.char '^'
  · rw [if_pos h8]; exact Or.inr (Or.inl rfl)
  rw [if_neg h8]
  by_cases h9 : i.key = VKey.char '$'
  · rw [if_pos h9]; exact Or.inr (Or.inl rfl)
  rw [if_neg h9]
  by_cases h10 : i.key = VKey.char 'D'
  · rw [if_pos h10]; exact Or.inr (Or.inr ⟨_, rfl⟩)
  rw [if_neg h10]
  by_cases h11 : i.key = VKey.char 'C'
  · rw [if_pos h11]; exact Or.inr (Or.inr ⟨_, rfl⟩)
  rw [if_neg h11]
  by_cases h12 : i.key = VKey.char 'p'
  · rw [if_pos h12]; exact Or.inr (Or.inr ⟨_, rfl⟩)
  rw [if_neg h12]
  by_cases h13 : i.key = VKey.char 'u' ∧ i.ctrl = false
  · rw [if_pos h13]; exact Or.inr (Or.inr ⟨_, rfl⟩)
  rw [if_neg h13]
  by_cases h14 : i.key = VKey.char 'r' ∧ i.ctrl = true
  · rw [if_pos h14]; exact Or.inr (Or.inr ⟨_, rfl⟩)
  rw [if_neg h14]
  by_cases h15 : i.key = VKey.char 'x'
  · rw [if_pos h15]; exact Or.inr (Or.inr ⟨_, rfl⟩)
  rw [if_neg h15]
  by_cases h16 : i.key = VKey.char 'i'
  · rw [if_pos h16]; exact Or.inr (Or.inr ⟨_, rfl⟩)
  rw [if_neg h16]
  by_cases h17 : i.key = VKey.char 'a'
  · rw [if_pos h17]; exact Or.inr (Or.inr ⟨_, rfl⟩)
  rw [if_neg h17]
  by_cases h18 : i.key = VKey.char 'A'
  · rw [if_pos h18]; exact Or.inr (Or.inr ⟨_, rfl⟩)
  rw [if_neg h18]
  by_cases h19 : i.key = VKey.char 'o'
  · rw [if_pos h19]; exact Or.inr (Or.inr ⟨_, rfl⟩)
  rw [if_neg h19]
  by_cases h20 : i.key = VKey.char 'O'
  · rw [if_pos h20]; exact Or.inr (Or.inr ⟨_, rfl⟩)
  rw [if_neg h20]
  by_cases h21 : i.key = VKey.char 'I'
  · rw [if_pos h21]; exact Or.inr (Or.inr ⟨_, rfl⟩)
  rw [if_neg h21]
  by_cases h22 : i.key = VKey.char 'e' ∧ i.ctrl = true
  · rw [if_pos h22]; exact Or.inr (Or.inl rfl)
  rw [if_neg h22]
  by_cases h23 : i.key = VKey.char 'y' ∧ i.ctrl = true
  · rw [if_pos h23]; exact Or.inr (Or.inl rfl)
  rw [if_neg h23]
  by_cases h24 : i.key = VKey.char 'd' ∧ i.ctrl = true
  · rw [if_pos h24]; exact Or.inr (Or.inl rfl)
  rw [if_neg h24]
  by_cases h25 : i.key = VKey.char 'u' ∧ i.ctrl = true
  · rw [if_pos h25]; exact Or.inr (Or.inl rfl)
  rw [if_neg h25]
  by_cases h26 : i.key = VKey.char 'f' ∧ i.ctrl = true
  · rw [if_pos h26]; exact Or.inr (Or.inl rfl)
  rw [if_neg h26]
  by_cases h27 : i.key = VKey.char 'b' ∧ i.ctrl = true
  · rw [if_pos h27]; exact Or.inr (Or.inl rfl)
  rw [if_neg h27]
  by_cases h28 : i.key = VKey.char 'v' ∧ i.ctrl = false ∧ v.mode = Mode.normal
  · rw [if_pos h28]; exact Or.inr (Or.inr ⟨_, rfl⟩)
  rw [if_neg h28]
  by_cases h29 : i.key = VKey.char 'V' ∧ i.ctrl = false ∧ v.mode = Mode.normal
  · rw [if_pos h29]; exact Or.inr (Or.inr ⟨_, rfl⟩)
  rw [if_neg h29]
  by_cases h30 : (i.key = VKey.esc ∨ (i.key = VKey.char 'v' ∧ i.ctrl = false)) ∧ v.mode = Mode.visual
  · rw [if_pos h30]; exact Or.inr (Or.inr ⟨_, rfl⟩)
  rw [if_neg h30]
  by_cases h31 : i.key = VKey.char 'g' ∧ i.ctrl = false ∧ v.pending.key = VKey.char 'g' ∧ v.pending.ctrl = false
  · rw [if_pos h31]; exact Or.inr (Or.inl rfl)
  rw [if_neg h31]
  by_cases h32 : i.key = VKey.char 'G' ∧ i.ctrl = false
  · rw [if_pos h32]; exact Or.inr (Or.inl rfl)
  rw [if_neg h32]
  by_cases h33 : operator_repeat i.key v.mode = true ∧ i.ctrl = false
  · rw [if_pos h33]; exact Or.inr (Or.inl rfl)
  rw [if_neg h33]
  by_cases h34 : i.key = VKey.char 'y' ∧ i.ctrl = false ∧ v.mode = Mode.normal
  · rw [if_pos h34]; exact Or.inr (Or.inr ⟨_, rfl⟩)
  rw [if_neg h34]
  by_cases h35 : i.key = VKey.char 'd' ∧ i.ctrl = false ∧ v.mode = Mode.normal
  · rw [if_pos h35]; exact Or.inr (Or.inr ⟨_, rfl⟩)
  rw [if_neg h35]
  by_cases h36 : i.key = VKey.char 'c' ∧ i.ctrl = false ∧ v.mode = Mode.normal
  · rw [if_pos h36]; exact Or.inr (Or.inr ⟨_, rfl⟩)
  rw [if_neg h36]
  by_cases h37 : i.key = VKey.char 'y' ∧ i.ctrl = false ∧ v.mode = Mode.visual
  · rw [if_pos h37]; exact Or.inr (Or.inr ⟨_, rfl⟩)
  rw [if_neg h37]
  by_cases h38 : i.key = VKey.char 'd' ∧ i.ctrl = false ∧ v.mode = Mode.visual
  · rw [if_pos h38]; exact Or.inr (Or.inr ⟨_, rfl⟩)
  rw [if_neg h38]
  by_cases h39 : i.key = VKey.char 'c' ∧ i.ctrl = false ∧ v.mode = Mode.visual
  · rw [if_pos h39]; exact Or.inr (Or.inr ⟨_, rfl⟩)
  rw [if_neg h39]
  exact Or.inl rfl

theorem dispatch_fst_pending {σ : Type} (B : BufferOps σ) (v : Vim) (i : Input) (ta : σ)
    (j : Input) (h : (Vim.dispatch B v i ta).fst = some (.pending j)) : j = i := by
  rcases dispatch_cases B v i ta with hc | hc | ⟨m, hc⟩ <;> rw [hc] at h <;> simp_all

theorem finalize_fst_not_pending {σ : Type} (B : BufferOps σ) (m : Mode) (ta : σ)
    (j : Input) : (Vim.finalize B m ta).fst ≠ Transition.pending j := by
  unfold Vim.finalize
  split <;> simp

theorem transition_pending_eq {σ : Type} (B : BufferOps σ) (v : Vim) (i : Input) (ta : σ)
    (j : Input) (h : (Vim.transition B v i ta).fst = .pending j) : j = i := by
  unfold Vim.transition at h
  split at h
  · simp at h
  · split at h
    · split at h <;> simp_all
    · split at h
      · rename_i t ta2 heq
        dsimp only at h
        exact dispatch_fst_pending B v i ta j (by rw [heq, h])
      · exact absurd h (finalize_fst_not_pending B v.mode _ j)

set_option maxHeartbeats 1600000 in
theorem dispatch_pending_independent {σ : Type} (B : BufferOps σ) (m : Mode)
    (p q i : Input) (ta : σ) (hg : ¬(i.key = .char 'g' ∧ i.ctrl = false)) :
    Vim.dispatch B ⟨m, p⟩ i ta = Vim.dispatch B ⟨m, q⟩ i ta := by
  have hiff : (i.key = VKey.char 'g' ∧ i.ctrl = false ∧
        p.key = VKey.char 'g' ∧ p.ctrl = false) ↔
      (i.key = VKey.char 'g' ∧ i.ctrl = false ∧
        q.key = VKey.char 'g' ∧ q.ctrl = false) :=
    ⟨fun hc => False.elim (hg ⟨hc.1, hc.2.1⟩), fun hc => False.elim (hg ⟨hc.1, hc.2.1⟩)⟩
  unfold Vim.dispatch
  dsimp only
  simp only [hiff]

/-- Claim C7 (amended): while `'g'` is the pending two-key prefix in any
mode, a key other than plain `'g'` is processed exactly as it would be with
any other pending key (so the prefixed motion never fires on it); if it
produces a `Pending` transition the recorded key is that key itself (not
`'g'`), and a mode-changing transition resets the pending key to the default.
A key that falls through to `Nop`, however, leaves the pending `'g'` in
place. -/
theorem two_key_pending_drop {σ : Type} (B : BufferOps σ) (v : Vim) (q i : Input)
    (ta : σ)
    (hpend : v.pending.key = .char 'g' ∧ v.pending.ctrl = false)
    (hg : ¬(i.key = .char 'g' ∧ i.ctrl = false)) :
    Vim.transition B v i ta = Vim.transition B ⟨v.mode, q⟩ i ta ∧
    (∀ j, (Vim.transition B v i ta).fst = .pending j → j = i) ∧
    (∀ m, (Vim.transition B v i ta).fst = .mode m →
      (v.apply (Vim.transition B v i ta).fst).pending = Input.default) := by
  refine ⟨?_, fun j hj => transition_pending_eq B v i ta j hj, fun m hm => by rw [hm]; rfl⟩
  obtain ⟨vm, vp⟩ := v
  dsimp only
  cases vm <;> first
    | rfl
    | (unfold Vim.transition
       rw [dispatch_pending_independent B _ vp q i ta hg])

theorem two_key_pending_drop_witness :
    ((⟨.normal, ⟨.char 'g', false, false, false⟩⟩ : Vim).pending.key = .char 'g' ∧
      (⟨.normal, ⟨.char 'g', false, false, false⟩⟩ : Vim).pending.ctrl = false) ∧
    ¬((⟨.char 'h', false, false, false⟩ : Input).key = .char 'g' ∧
      (⟨.char 'h', false, false, false⟩ : Input).ctrl = false) ∧
    Vim.transition TraceOps ⟨.normal, ⟨.char 'g', false, false, false⟩⟩
        ⟨.char 'h', false, false, false⟩ [] =
      Vim.transition TraceOps ⟨.normal, Input.default⟩ ⟨.char 'h', false, false, false⟩ [] :=
  ⟨⟨rfl, rfl⟩, by decide,
    (two_key_pending_drop TraceOps ⟨.normal, ⟨.char 'g', false, false, false⟩⟩
      Input.default ⟨.char 'h', false, false, false⟩ [] ⟨rfl, rfl⟩ (by decide)).1⟩

/-- Claim C7, counterexample to the original statement: in Normal mode with
`'g'` pending, pressing `'h'` (a plain motion) yields `Nop`, which leaves the
pending `'g'` in place, and a subsequent `'g'` then completes the go-to-top
motion — the pending key was not dropped. -/
theorem two_key_pending_drop_counterexample :
    (Vim.apply ⟨.normal, ⟨.char 'g', false, false, false⟩⟩
        (Vim.transition TraceOps ⟨.normal, ⟨.char 'g', false, false, false⟩⟩
          ⟨.char 'h', false, false, false⟩ []).fst).pending =
      ⟨.char 'g', false, false, false⟩ ∧
    (Vim.transition TraceOps ⟨.normal, ⟨.char 'g', false, false, false⟩⟩
      ⟨.char 'g', false, false, false⟩ []).snd = [.move .top] := by decide

/-- Claim C8 (amended): in Visual mode, Escape or the character-wise visual
key `'v'` (without ctrl) cancels the selection and returns to Normal,
regardless of which key entered Visual; the line-wise key `'V'` does not. -/
theorem visual_cancel {σ : Type} (B : BufferOps σ) (v : Vim) (i : Input) (ta : σ)
    (hm : v.mode = .visual)
    (hk : i.key = .esc ∨ (i.key = .char 'v' ∧ i.ctrl = false)) :
    Vim.transition B v i ta = (.mode .normal, B.cancel_selection ta) := by
  obtain ⟨vm, vp⟩ := v
  obtain ⟨key, ctrl, alt, shift⟩ := i
  dsimp only at hm hk
  subst hm
  rcases hk with hk | ⟨hk, hc⟩ <;> subst_vars <;> rfl

/-- Claim C8, counterexample to the original statement: re-pressing `'V'`
(which entered line-wise Visual) does not return to Normal; the key falls
through to a `Pending` transition and the mode stays Visual. -/
theorem visual_cancel_counterexample :
    (Vim.transition TraceOps ⟨.visual, Input.default⟩ ⟨.char 'V', false, false, false⟩
      []).fst = .pending ⟨.char 'V', false, false, false⟩ ∧
    (Vim.apply ⟨.visual, Input.default⟩
        (Vim.transition TraceOps ⟨.visual, Input.default⟩ ⟨.char 'V', false, false, false⟩
          []).fst).mode = .visual := by decide

theorem visual_cancel_witness :
    ((⟨.visual, Input.default⟩ : Vim).mode = .visual) ∧
    Vim.transition TraceOps ⟨.visual, Input.default⟩ ⟨.esc, false, false, false⟩ [] =
      (.mode .normal, [.cancelSelection]) ∧
    Vim.transition TraceOps ⟨.visual, Input.default⟩ ⟨.char 'v', false, false, false⟩ [] =
      (.mode .normal, [.cancelSelection]) :=
  ⟨rfl,
    visual_cancel TraceOps ⟨.visual, Input.default⟩ ⟨.esc, false, false, false⟩ []
      rfl (Or.inl rfl),
    visual_cancel TraceOps ⟨.visual, Input.default⟩ ⟨.char 'v', false, false, false⟩ []
      rfl (Or.inr ⟨rfl, rfl⟩)⟩

/-! ### Theorems about the language picker filter -/

theorem find_char_none (n : Char) (c : List Char) : find_char n c = none ↔ n ∉ c := by
  induction c with
  | nil => simp [find_char]
  | cons b bs ih =>
    by_cases hb : b = n
    · subst hb; simp [find_char]
    · simp [find_char, hb, Option.map_eq_none', ih, Ne.symm hb]

theorem find_char_some (n : Char) (c : List Char) (k : Nat) (h : find_char n c = some k) :
    ∃ c₁ c₂, c = c₁ ++ n :: c₂ ∧ c₁.length = k ∧ n ∉ c₁ := by
  induction c generalizing k with
  | nil => simp [find_char] at h
  | cons b bs ih =>
    by_cases hb : b = n
    · subst hb
      simp [find_char] at h
      exact ⟨[], bs, rfl, h, by simp⟩
    · simp [find_char, hb, Option.map_eq_some'] at h
      obtain ⟨j, hj, hk⟩ := h
      obtain ⟨c₁, c₂, hc, hlen, hmem⟩ := ih j hj
      refine ⟨b :: c₁, c₂, by simp [hc], by simp [hlen, hk], ?_⟩
      simp only [List.mem_cons, not_or]
      exact ⟨Ne.symm hb, hmem⟩

theorem isSubseq_not_mem (n : Char) (ns c : List Char) (h : n ∉ c) :
    isSubseq (n :: ns) c = false := by
  induction c with
  | nil => rfl
  | cons b bs ih =>
    simp only [List.mem_cons, not_or] at h
    simp [isSubseq, h.1, ih h.2]

theorem isSubseq_append (n : Char) (ns c₂ : List Char) (c₁ : List Char) (h : n ∉ c₁) :
    isSubseq (n :: ns) (c₁ ++ n :: c₂) = isSubseq ns c₂ := by
  induction c₁ with
  | nil => simp [isSubseq]
  | cons b bs ih =>
    simp only [List.mem_cons, not_or] at h
    simp only [List.cons_append, isSubseq, if_neg h.1]
    exact ih h.2

theorem drop_append_cons (c₁ c₂ : List Char) (n : Char) :
    (c₁ ++ n :: c₂).drop (c₁.length + 1) = c₂ := by
  rw [← List.drop_drop, List.drop_left]
  rfl

theorem fuzzy_aux_isSome (q : List Char) : ∀ c : List Char,
    (fuzzy_score_aux q c).isSome = isSubseq q c := by
  induction q with
  | nil => intro c; simp [fuzzy_score_aux, isSubseq]
  | cons n ns ih =>
    intro c
    cases hf : find_char n c with
    | none =>
      have hn : n ∉ c := (find_char_none n c).1 hf
      simp [fuzzy_score_aux, hf, isSubseq_not_mem n ns c hn]
    | some k =>
      obtain ⟨c₁, c₂, hc, hlen, hmem⟩ := find_char_some n c k hf
      subst hc
      subst hlen
      rw [isSubseq_append n ns c₂ c₁ hmem, ← ih c₂]
      simp only [fuzzy_score_aux, hf, drop_append_cons]
      cases fuzzy_score_aux ns c₂ <;> simp

theorem fuzzy_aux_skip (q : List Char) : ∀ (c : List Char) (s : Nat),
    fuzzy_score_aux q c = some s → SkipScore q c s := by
  induction q with
  | nil =>
    intro c s h
    simp [fuzzy_score_aux] at h
    exact h ▸ SkipScore.nil c
  | cons n ns ih =>
    intro c s h
    cases hf : find_char n c with
    | none => simp [fuzzy_score_aux, hf] at h
    | some k =>
      obtain ⟨c₁, c₂, hc, hlen, hmem⟩ := find_char_some n c k hf
      subst hc
      subst hlen
      simp only [fuzzy_score_aux, hf, drop_append_cons] at h
      cases hr : fuzzy_score_aux ns c₂ with
      | none => rw [hr] at h; simp at h
      | some s2 =>
        rw [hr] at h
        simp at h
        exact h ▸ SkipScore.cons n ns c₁ c₂ s2 hmem (ih c₂ s2 hr)

theorem lex_le_total (a : List Char) : ∀ b : List Char,
    lex_le a b = true ∨ lex_le b a = true := by
  induction a with
  | nil => intro b; left; rfl
  | cons x xs ih =>
    intro b
    cases b with
    | nil => right; rfl
    | cons y ys =>
      by_cases hxy : x = y
      · subst hxy
        simpa [lex_le] using ih ys
      · rcases lt_trichotomy x y with h | h | h
        · left; simp [lex_le, hxy, h]
        · exact absurd h hxy
        · right; simp [lex_le, Ne.symm hxy, h]

theorem lex_le_trans (a : List Char) : ∀ b c : List Char,
    lex_le a b = true → lex_le b c = true → lex_le a c = true := by
  induction a with
  | nil => intro b c _ _; rfl
  | cons x xs ih =>
    intro b c hab hbc
    cases b with
    | nil => simp [lex_le] at hab
    | cons y ys =>
      cases c with
      | nil => simp [lex_le] at hbc
      | cons z zs =>
        by_cases hxy : x = y <;> by_cases hyz : y = z
        · subst hxy; subst hyz
          simp only [lex_le, if_pos rfl] at hab hbc ⊢
          exact ih ys zs hab hbc
        · subst hxy
          simp only [lex_le, if_pos rfl] at hab
          simp only [lex_le, if_neg hyz] at hbc ⊢
          exact hbc
        · subst hyz
          simp only [lex_le, if_neg hxy] at hab ⊢
          exact hab
        · simp only [lex_le, if_neg hxy] at hab
          simp only [lex_le, if_neg hyz] at hbc
          have hxz : x < z := lt_trans (of_decide_eq_true hab) (of_decide_eq_true hbc)
          have hne : ¬x = z := ne_of_lt hxz
          simp [lex_le, hne, hxz]

instance : IsTotal (Nat × Nat) match_order where
  total a b := by
    rcases lt_trichotomy a.1 b.1 with h | h | h
    · exact Or.inl (Or.inl h)
    · rcases lex_le_total (languageAt a.2).name.data (languageAt b.2).name.data with hl | hl
      · exact Or.inl (Or.inr ⟨h, hl⟩)
      · exact Or.inr (Or.inr ⟨h.symm, hl⟩)
    · exact Or.inr (Or.inl h)

instance : IsTrans (Nat × Nat) match_order where
  trans a b c hab hbc := by
    rcases hab with hab | ⟨hab, hab2⟩ <;> rcases hbc with hbc | ⟨hbc, hbc2⟩
    · exact Or.inl (lt_trans hab hbc)
    · exact Or.inl (hbc ▸ hab)
    · exact Or.inl (hab ▸ hbc)
    · exact Or.inr ⟨hab.trans hbc, lex_le_trans _ _ _ hab2 hbc2⟩

theorem mem_language_matches (query : String) (pr : Nat × Nat) :
    pr ∈ language_matches query ↔
      pr.2 < LANGUAGES.length ∧
        fuzzy_score query (language_candidate (languageAt pr.2)) = some pr.1 := by
  unfold language_matches
  rw [List.mem_filterMap]
  constructor
  · rintro ⟨p, hp, heq⟩
    rw [Option.map_eq_some'] at heq
    obtain ⟨s, hs, heq⟩ := heq
    have hg : LANGUAGES.get? p.1 = some p.2 := List.mem_enum_iff_get?.1 hp
    have hlt : p.1 < LANGUAGES.length := by
      have := List.get?_eq_some.1 hg
      exact this.1
    have hA : languageAt p.1 = p.2 := by unfold languageAt; rw [hg]; rfl
    subst heq
    exact ⟨hlt, by rw [hA]; exact hs⟩
  · rintro ⟨hlt, hf⟩
    refine ⟨(pr.2, languageAt pr.2), ?_, ?_⟩
    · rw [List.mem_enum_iff_get?]
      dsimp only
      unfold languageAt
      rw [List.get?_eq_get hlt]
      rfl
    · rw [Option.map_eq_some']
      exact ⟨pr.1, hf, by simp⟩

theorem mem_sorted_matches (query : String) (pr : Nat × Nat)
    (h : pr ∈ (language_matches query).insertionSort match_order) :
    pr ∈ language_matches query :=
  (List.perm_insertionSort match_order (language_matches query)).mem_iff.1 h

theorem filtered_mem_iff (query : String) (hq : ¬trim_is_empty query = true)
    (index : Nat) :
    index ∈ filtered_language_indices query ↔
      index < LANGUAGES.length ∧
        isSubseq (to_ascii_lower query).data
          (language_candidate (languageAt index)).data = true := by
  unfold filtered_language_indices
  rw [if_neg hq, List.mem_map]
  constructor
  · rintro ⟨pr, hpr, heq⟩
    obtain ⟨hlt, hf⟩ := (mem_language_matches query pr).1 (mem_sorted_matches query pr hpr)
    subst heq
    refine ⟨hlt, ?_⟩
    rw [← fuzzy_aux_isSome]
    rw [show fuzzy_score_aux (to_ascii_lower query).data
        (language_candidate (languageAt pr.2)).data =
      fuzzy_score query (language_candidate (languageAt pr.2)) from rfl, hf]
    rfl
  · rintro ⟨hlt, hsub⟩
    rw [← fuzzy_aux_isSome] at hsub
    have hsome : (fuzzy_score query (language_candidate (languageAt index))).isSome = true :=
      hsub
    rw [Option.isSome_iff_exists] at hsome
    obtain ⟨s, hs⟩ := hsome
    refine ⟨(s, index), ?_, rfl⟩
    rw [(List.perm_insertionSort match_order (language_matches query)).mem_iff]
    exact (mem_language_matches query (s, index)).2 ⟨hlt, hs⟩

theorem filtered_pairwise (query : String) (hq : ¬trim_is_empty query = true) :
    (filtered_language_indices query).Pairwise (fun a b => ∃ sa sb,
      fuzzy_score query (language_candidate (languageAt a)) = some sa ∧
      fuzzy_score query (language_candidate (languageAt b)) = some sb ∧
      (sa < sb ∨ (sa = sb ∧
        lex_le (languageAt a).name.data (languageAt b).name.data = true))) := by
  unfold filtered_language_indices
  rw [if_neg hq, List.pairwise_map]
  have hsorted : ((language_matches query).insertionSort match_order).Pairwise match_order :=
    List.sorted_insertionSort match_order (language_matches query)
  refine hsorted.imp_of_mem ?_
  intro a b ha hb hab
  obtain ⟨_, hfa⟩ := (mem_language_matches query a).1 (mem_sorted_matches query a ha)
  obtain ⟨_, hfb⟩ := (mem_language_matches query b).1 (mem_sorted_matches query b hb)
  exact ⟨a.1, b.1, hfa, hfb, hab⟩

/-- Claim C2 (amended): a query that is empty or whitespace-only yields the
entire catalog in original order with no scoring; any other query includes an
entry iff every character of the ASCII-lowercased query occurs in
left-to-right order in the lowercased "displayName space code" candidate
(subsequence match), each included entry is scored by the sum of candidate
characters skipped before each greedy hit, and the results are ordered by
ascending score with ties broken by displayName lexicographic order. -/
theorem filtered_language_indices_spec (query : String) :
    (trim_is_empty query = true →
      filtered_language_indices query = List.range LANGUAGES.length) ∧
    (¬trim_is_empty query = true →
      (∀ index : Nat, index ∈ filtered_language_indices query ↔
        index < LANGUAGES.length ∧
          isSubseq (to_ascii_lower query).data
            (language_candidate (languageAt index)).data = true) ∧
      (filtered_language_indices query).Pairwise (fun a b => ∃ sa sb,
        SkipScore (to_ascii_lower query).data
          (language_candidate (languageAt a)).data sa ∧
        SkipScore (to_ascii_lower query).data
          (language_candidate (languageAt b)).data sb ∧
        (sa < sb ∨ (sa = sb ∧
          lex_le (languageAt a).name.data (languageAt b).name.data = true)))) := by
  constructor
  · intro hq
    unfold filtered_language_indices
    rw [if_pos hq]
  · intro hq
    refine ⟨filtered_mem_iff query hq, ?_⟩
    refine (filtered_pairwise query hq).imp ?_
    rintro a b ⟨sa, sb, hfa, hfb, hord⟩
    exact ⟨sa, sb, fuzzy_aux_skip _ _ sa hfa, fuzzy_aux_skip _ _ sb hfb, hord⟩

theorem filtered_language_indices_spec_witness :
    (¬trim_is_empty "ger" = true) ∧
    ((3 : Nat) ∈ filtered_language_indices "ger" ↔
      3 < LANGUAGES.length ∧
        isSubseq (to_ascii_lower "ger").data
          (language_candidate (languageAt 3)).data = true) :=
  ⟨by decide, ((filtered_language_indices_spec "ger").2 (by decide)).1 3⟩

/-- Claim C2, counterexample to the original statement: the whitespace-only
query `"\t"` is non-empty, yet the filter short-circuits through the
`query.trim().is_empty()` branch and returns the whole catalog — including
entry 0 ("English"), whose candidate string does not contain the tab
character, contradicting the claimed match condition (and the claimed
score-sorted order, which for a whitespace query would put "Dutch" first). -/
theorem filtered_language_indices_counterexample :
    (0 ∈ filtered_language_indices "\t") ∧
    isSubseq (to_ascii_lower "\t").data
      (language_candidate (languageAt 0)).data = false := by decide

/-! ### Theorems about the translation session -/

theorem pending_last_schedule {σ : Type} (now : Nat) (app : AppState σ) :
    (schedule_translation now app).last_edit.isSome = true := rfl

theorem pending_last_picker {σ : Type} (now : Nat) (key : KeyEvent) (app : AppState σ)
    (h : app.pending_translation = true → app.last_edit.isSome = true) :
    (App.handle_picker_key now key app).fst.pending_translation = true →
      (App.handle_picker_key now key app).fst.last_edit.isSome = true := by
  unfold App.handle_picker_key
  dsimp only
  repeat' split
  all_goals first
    | exact h
    | exact fun _ => rfl

/-- Structural case analysis of `App::handle_key`: every key event either
leaves the session unchanged, is routed to the picker handler, requests an
action, opens a picker, or reaches the vim branch, whose result preserves the
translation bookkeeping fields up to an optional final `schedule_translation`.
-/
theorem handle_key_characterization {σ : Type} (B : BufferOps σ) (now : Nat)
    (key : KeyEvent) (app : AppState σ) :
    App.handle_key B now key app = (app, .none) ∨
    App.handle_key B now key app = App.handle_picker_key now key app ∨
    App.handle_key B now key app = (app, .quit) ∨
    App.handle_key B now key app = (App.open_picker .left app, .none) ∨
    App.handle_key B now key app = (App.open_picker .right app, .none) ∨
    App.handle_key B now key app = (app, .nativeizeBoth) ∨
    (∃ app2 : AppState σ,
      (app2.pending_translation = app.pending_translation ∧
        app2.last_edit = app.last_edit ∧
        app2.error = app.error ∧
        app2.picker = app.picker) ∧
      (App.handle_key B now key app = (app2, .none) ∨
        App.handle_key B now key app = (schedule_translation now app2, .none))) := by
  unfold App.handle_key
  by_cases h1 : key.kind ≠ KeyEventKind.press
  · rw [if_pos h1]; exact Or.inl rfl
  rw [if_neg h1]
  by_cases h2 : app.picker.isSome = true
  · rw [if_pos h2]; exact Or.inr (Or.inl rfl)
  rw [if_neg h2]
  by_cases h3 : key.code = KeyCode.char 'c' ∧ key.modifiers.ctrl = true
  · rw [if_pos h3]; exact Or.inr (Or.inr (Or.inl rfl))
  rw [if_neg h3]
  by_cases h4 : key.code = KeyCode.char 'h' ∧ key.modifiers.ctrl = true
  · rw [if_pos h4]; exact Or.inr (Or.inr (Or.inr (Or.inl rfl)))
  rw [if_neg h4]
  by_cases h5 : key.code = KeyCode.char 'l' ∧ key.modifiers.ctrl = true
  · rw [if_pos h5]; exact Or.inr (Or.inr (Or.inr (Or.inr (Or.inl rfl))))
  rw [if_neg h5]
  by_cases h6 : key.code = KeyCode.char 'n' ∧ key.modifiers.ctrl = true
  · rw [if_pos h6]; exact Or.inr (Or.inr (Or.inr (Or.inr (Or.inr (Or.inl rfl)))))
  rw [if_neg h6]
  by_cases h7 : key.code = KeyCode.char 'r' ∧ key.modifiers.ctrl = true
  · rw [if_pos h7]
    refine Or.inr (Or.inr (Or.inr (Or.inr (Or.inr (Or.inr ?_)))))
    cases happ : app.active
    · exact ⟨{ app with active := .left, input := B.default_textarea },
        ⟨rfl, rfl, rfl, rfl⟩, Or.inr rfl⟩
    · exact ⟨{ app with active := .right, output := B.default_textarea },
        ⟨rfl, rfl, rfl, rfl⟩, Or.inr rfl⟩
  rw [if_neg h7]
  by_cases h8 : key.code = KeyCode.tab
  · rw [if_pos h8]
    exact Or.inr (Or.inr (Or.inr (Or.inr (Or.inr (Or.inr
      ⟨{ app with active := match app.active with | .left => .right | .right => .left },
        ⟨rfl, rfl, rfl, rfl⟩, Or.inl rfl⟩)))))
  rw [if_neg h8]
  by_cases h9 : key.code = KeyCode.backspace ∧ key.modifiers.ctrl = true
  · rw [if_pos h9]; exact Or.inr (Or.inr (Or.inr (Or.inl rfl)))
  rw [if_neg h9]
  refine Or.inr (Or.inr (Or.inr (Or.inr (Or.inr (Or.inr ?_)))))
  dsimp only
  cases app.active
  · cases hv : Vim.transition B app.left_vim (textarea_input_from_key key) app.input with
    | mk t ta =>
      dsimp only
      refine ⟨App.update_vim_state .left t { app with active := .left, input := ta },
        ⟨rfl, rfl, rfl, rfl⟩, ?_⟩
      by_cases hb : B.text app.input =
          B.text (App.update_vim_state .left t { app with active := .left, input := ta }).input
      · rw [if_pos hb]; exact Or.inl rfl
      · rw [if_neg hb]; exact Or.inr rfl
  · cases hv : Vim.transition B app.right_vim (textarea_input_from_key key) app.output with
    | mk t ta =>
      dsimp only
      refine ⟨App.update_vim_state .right t { app with active := .right, output := ta },
        ⟨rfl, rfl, rfl, rfl⟩, ?_⟩
      by_cases hb : B.text app.output =
          B.text (App.update_vim_state .right t { app with active := .right, output := ta }).output
      · rw [if_pos hb]; exact Or.inl rfl
      · rw [if_neg hb]; exact Or.inr rfl

theorem pending_last_handle_key {σ : Type} (B : BufferOps σ) (now : Nat) (key : KeyEvent)
    (app : AppState σ)
    (h : app.pending_translation = true → app.last_edit.isSome = true) :
    (App.handle_key B now key app).fst.pending_translation = true →
      (App.handle_key B now key app).fst.last_edit.isSome = true := by
  rcases handle_key_characterization B now key app with
    hc | hc | hc | hc | hc | hc | ⟨app2, ⟨hp2, hl2, _, _⟩, hc | hc⟩ <;> rw [hc]
  · exact h
  · exact pending_last_picker now key app h
  · exact h
  · exact h
  · exact h
  · exact h
  · intro hp
    have := h (hp2 ▸ hp)
    exact hl2 ▸ this
  · exact fun _ => rfl

theorem pending_last_maybe {σ : Type} (B : BufferOps σ) (tr : Translator) (now : Nat)
    (app : AppState σ)
    (h : app.pending_translation = true → app.last_edit.isSome = true) :
    (maybe_translate B tr now app).fst.pending_translation = true →
      (maybe_translate B tr now app).fst.last_edit.isSome = true := by
  unfold maybe_translate
  dsimp only
  repeat' split
  all_goals first
    | exact h
    | exact fun hp => absurd hp Bool.false_ne_true

theorem pending_last_nativeize {σ : Type} (B : BufferOps σ) (tr : Translator)
    (app : AppState σ)
    (h : app.pending_translation = true → app.last_edit.isSome = true) :
    (nativeize_both B tr app).fst.pending_translation = true →
      (nativeize_both B tr app).fst.last_edit.isSome = true := by
  unfold nativeize_both
  dsimp only
  repeat' split
  all_goals first
    | exact h
    | exact fun hp => absurd hp Bool.false_ne_true

theorem pending_last_handle_event {σ : Type} (B : BufferOps σ) (tr : Translator)
    (now : Nat) (key : KeyEvent) (app : AppState σ)
    (h : app.pending_translation = true → app.last_edit.isSome = true) :
    (handle_event B tr now key app).pending_translation = true →
      (handle_event B tr now key app).last_edit.isSome = true := by
  unfold handle_event
  cases hk : App.handle_key B now key app with
  | mk app2 act =>
    have h2 := pending_last_handle_key B now key app h
    rw [hk] at h2
    cases act
    · exact h2
    · exact h2
    · exact pending_last_nativeize B tr app2 h2

/-- Claim C3 (amended): in every reachable session state, pendingTranslation
implies that lastEditTimestamp is set (every operation that arms the cycle
sets both).  The converse fails: a debounce firing clears pendingTranslation
but leaves lastEditTimestamp set, so the two flags are not always cleared
together. -/
theorem pending_translation_imp_last_edit {σ : Type} (B : BufferOps σ)
    (app : AppState σ) (h : Reachable B app) :
    app.pending_translation = true → app.last_edit.isSome = true := by
  induction h with
  | init => intro hp; exact absurd hp (by simp [App.new])
  | key app k now tr _ ih => exact pending_last_handle_event B tr now k app ih
  | tick app now tr _ ih => exact pending_last_maybe B tr now app ih

theorem pending_translation_imp_last_edit_witness :
    Reachable SimpleOps
      (handle_event SimpleOps (fun _ _ _ => Except.error "unavailable") 0
        ⟨.char 'r', ⟨true, false, false⟩, .press⟩ (App.new SimpleOps)) ∧
    (handle_event SimpleOps (fun _ _ _ => Except.error "unavailable") 0
        ⟨.char 'r', ⟨true, false, false⟩, .press⟩
        (App.new SimpleOps)).pending_translation = true ∧
    (handle_event SimpleOps (fun _ _ _ => Except.error "unavailable") 0
        ⟨.char 'r', ⟨true, false, false⟩, .press⟩
        (App.new SimpleOps)).last_edit.isSome = true :=
  ⟨Reachable.key _ _ 0 _ Reachable.init, by decide,
    pending_translation_imp_last_edit SimpleOps _
      (Reachable.key _ _ 0 _ Reachable.init) (by decide)⟩

/-- Claim C3, counterexample to the original statement: after arming the
cycle with the clear-active-pane chord at time 0 and letting the debounce
fire at time 350 (empty source), the reachable state has pendingTranslation
cleared but lastEditTimestamp still set to 0 — the claimed equivalence fails
in a reachable state. -/
theorem pending_translation_iff_counterexample :
    Reachable SimpleOps
      (maybe_translate SimpleOps (fun _ _ _ => Except.error "unavailable") 350
        (handle_event SimpleOps (fun _ _ _ => Except.error "unavailable") 0
          ⟨.char 'r', ⟨true, false, false⟩, .press⟩ (App.new SimpleOps))).fst ∧
    (maybe_translate SimpleOps (fun _ _ _ => Except.error "unavailable") 350
        (handle_event SimpleOps (fun _ _ _ => Except.error "unavailable") 0
          ⟨.char 'r', ⟨true, false, false⟩, .press⟩
          (App.new SimpleOps))).fst.pending_translation = false ∧
    (maybe_translate SimpleOps (fun _ _ _ => Except.error "unavailable") 350
        (handle_event SimpleOps (fun _ _ _ => Except.error "unavailable") 0
          ⟨.char 'r', ⟨true, false, false⟩, .press⟩
          (App.new SimpleOps))).fst.last_edit = some 0 :=
  ⟨Reachable.tick _ 350 _ (Reachable.key _ _ 0 _ Reachable.init), by decide, by decide⟩

theorem maybe_translate_not_pending {σ : Type} (B : BufferOps σ) (tr : Translator)
    (now : Nat) (app : AppState σ) (hp : app.pending_translation = false) :
    maybe_translate B tr now app = (app, []) := by
  unfold maybe_translate
  rw [if_pos (by rw [hp]; simp)]

theorem maybe_translate_fires {σ : Type} (B : BufferOps σ) (tr : Translator)
    (now t : Nat) (app : AppState σ)
    (hp : app.pending_translation = true)
    (ht : app.last_edit = some t)
    (hd : ¬now - t < TRANSLATION_DEBOUNCE) :
    maybe_translate B tr now app =
      (if trim_is_empty (active_source_text B app) then
        ({ write_target B app "" with pending_translation := false }, [])
      else
        match tr (active_source_text B app) (active_source_lang app)
            (active_target_lang app) with
        | .ok translated =>
          ({ write_target B app translated with
              error := none
              pending_translation := false },
           [⟨active_source_text B app, active_source_lang app, active_target_lang app⟩])
        | .error message =>
          ({ app with error := some message, pending_translation := false },
           [⟨active_source_text B app, active_source_lang app, active_target_lang app⟩])) := by
  unfold maybe_translate
  rw [if_neg (by rw [hp]; simp)]
  simp only [ht]
  rw [if_neg hd]

/-- Claim C4: on a debounce firing with non-empty source, a failed translator
call records the failure in lastError, leaves everything else — in particular
the target pane's buffer — untouched, and clears pendingTranslation; a
successful call overwrites the target buffer, clears lastError, and clears
pendingTranslation; in both cases exactly one call is made and a subsequent
poll performs nothing (no automatic retry). -/
theorem maybe_translate_outcomes {σ : Type} (B : BufferOps σ) (tr : Translator)
    (now t : Nat) (app : AppState σ)
    (hp : app.pending_translation = true)
    (ht : app.last_edit = some t)
    (hd : ¬now - t < TRANSLATION_DEBOUNCE)
    (hs : ¬trim_is_empty (active_source_text B app) = true) :
    (∀ message,
      tr (active_source_text B app) (active_source_lang app) (active_target_lang app) =
        .error message →
      maybe_translate B tr now app =
        ({ app with error := some message, pending_translation := false },
         [⟨active_source_text B app, active_source_lang app, active_target_lang app⟩])) ∧
    (∀ translated,
      tr (active_source_text B app) (active_source_lang app) (active_target_lang app) =
        .ok translated →
      maybe_translate B tr now app =
        ({ write_target B app translated with
            error := none
            pending_translation := false },
         [⟨active_source_text B app, active_source_lang app, active_target_lang app⟩])) ∧
    (∀ (tr2 : Translator) (now2 : Nat),
      maybe_translate B tr2 now2 (maybe_translate B tr now app).fst =
        ((maybe_translate B tr now app).fst, [])) := by
  have hfire := maybe_translate_fires B tr now t app hp ht hd
  rw [if_neg hs] at hfire
  refine ⟨?_, ?_, ?_⟩
  · intro message hm
    rw [hfire, hm]
  · intro translated hok
    rw [hfire, hok]
  · intro tr2 now2
    apply maybe_translate_not_pending
    rw [hfire]
    cases tr (active_source_text B app) (active_source_lang app) (active_target_lang app) <;>
      rfl

theorem maybe_translate_outcomes_witness :
    ({ App.new SimpleOps with
        pending_translation := true
        last_edit := some 0
        input := "hi" } : AppState String).pending_translation = true ∧
    maybe_translate SimpleOps (fun _ _ _ => Except.error "boom") 400
        { App.new SimpleOps with
            pending_translation := true
            last_edit := some 0
            input := "hi" } =
      ({ App.new SimpleOps with
          pending_translation := false
          last_edit := some 0
          input := "hi"
          error := some "boom" }, [⟨"hi", "EN", "ES"⟩]) ∧
    maybe_translate SimpleOps (fun _ _ _ => Except.ok "hola") 400
        { App.new SimpleOps with
            pending_translation := true
            last_edit := some 0
            input := "hi" } =
      ({ App.new SimpleOps with
          pending_translation := false
          last_edit := some 0
          input := "hi"
          output := "hola" }, [⟨"hi", "EN", "ES"⟩]) := by
  refine ⟨rfl, ?_, ?_⟩
  · have h := (maybe_translate_outcomes SimpleOps (fun _ _ _ => Except.error "boom") 400 0
      { App.new SimpleOps with
          pending_translation := true
          last_edit := some 0
          input := "hi" } rfl rfl (by decide) (by decide)).1 "boom" rfl
    rw [h]; rfl
  · have h := (maybe_translate_outcomes SimpleOps (fun _ _ _ => Except.ok "hola") 400 0
      { App.new SimpleOps with
          pending_translation := true
          last_edit := some 0
          input := "hi" } rfl rfl (by decide) (by decide)).2.1 "hola" rfl
    rw [h]; rfl

/-- Claim C5: on a debounce firing whose source text is empty or
whitespace-only, the target pane's buffer is cleared, pendingTranslation is
cleared, and the translator is never invoked. -/
theorem maybe_translate_empty_source {σ : Type} (B : BufferOps σ) (tr : Translator)
    (now t : Nat) (app : AppState σ)
    (hp : app.pending_translation = true)
    (ht : app.last_edit = some t)
    (hd : ¬now - t < TRANSLATION_DEBOUNCE)
    (hs : trim_is_empty (active_source_text B app) = true) :
    (maybe_translate B tr now app).snd = [] ∧
    (maybe_translate B tr now app).fst.pending_translation = false ∧
    (app.active = .left → (maybe_translate B tr now app).fst.output = B.from_text "" ∧
      (maybe_translate B tr now app).fst.input = app.input) ∧
    (app.active = .right → (maybe_translate B tr now app).fst.input = B.from_text "" ∧
      (maybe_translate B tr now app).fst.output = app.output) := by
  have hfire := maybe_translate_fires B tr now t app hp ht hd
  rw [if_pos hs] at hfire
  rw [hfire]
  refine ⟨rfl, rfl, ?_, ?_⟩ <;> intro ha <;>
    constructor <;> simp [write_target, ha]

theorem maybe_translate_empty_source_witness :
    ({ App.new SimpleOps with
        pending_translation := true
        last_edit := some 0
        input := " "
        output := "old" } : AppState String).pending_translation = true ∧
    (maybe_translate SimpleOps (fun _ _ _ => Except.error "unavailable") 400
        { App.new SimpleOps with
            pending_translation := true
            last_edit := some 0
            input := " "
            output := "old" }).snd = [] ∧
    (maybe_translate SimpleOps (fun _ _ _ => Except.error "unavailable") 400
        { App.new SimpleOps with
            pending_translation := true
            last_edit := some 0
            input := " "
            output := "old" }).fst.pending_translation = false ∧
    (maybe_translate SimpleOps (fun _ _ _ => Except.error "unavailable") 400
        { App.new SimpleOps with
            pending_translation := true
            last_edit := some 0
            input := " "
            output := "old" }).fst.output = "" :=
  ⟨rfl,
    (maybe_translate_empty_source SimpleOps (fun _ _ _ => Except.error "unavailable") 400 0
      _ rfl rfl (by decide) (by decide)).1,
    (maybe_translate_empty_source SimpleOps (fun _ _ _ => Except.error "unavailable") 400 0
      _ rfl rfl (by decide) (by decide)).2.1,
    ((maybe_translate_empty_source SimpleOps (fun _ _ _ => Except.error "unavailable") 400 0
      _ rfl rfl (by decide) (by decide)).2.2.1 rfl).1⟩

/-- Claim C6 (amended): the nativize-both command is a no-op when both
buffers are empty or whitespace-only; otherwise it translates left-to-right
and right-to-left independently from the pre-command snapshots, skipping any
side whose source is empty or whitespace-only, a failure in one direction
does not block the other, lastError records the first failure encountered
(and is cleared when no attempted direction fails), and pendingTranslation
and lastEditTimestamp are cleared unconditionally on completion. -/
theorem nativeize_both_spec {σ : Type} (B : BufferOps σ) (tr : Translator)
    (app : AppState σ)
    (htext : ∀ s, B.text (B.from_text s) = s) :
    (trim_is_empty (B.text app.input) = true ∧ trim_is_empty (B.text app.output) = true →
      nativeize_both B tr app = (app, [])) ∧
    (¬(trim_is_empty (B.text app.input) = true ∧
        trim_is_empty (B.text app.output) = true) →
      (nativeize_both B tr app).fst.pending_translation = false ∧
      (nativeize_both B tr app).fst.last_edit = none ∧
      (nativeize_both B tr app).snd =
        (if trim_is_empty (B.text app.input) then [] else
          [⟨B.text app.input, (languageAt app.left_language).code,
            (languageAt app.right_language).code⟩]) ++
        (if trim_is_empty (B.text app.output) then [] else
          [⟨B.text app.output, (languageAt app.right_language).code,
            (languageAt app.left_language).code⟩]) ∧
      (∀ translated, ¬trim_is_empty (B.text app.input) = true →
        tr (B.text app.input) (languageAt app.left_language).code
            (languageAt app.right_language).code = .ok translated →
        B.text (nativeize_both B tr app).fst.output = translated) ∧
      (∀ message, ¬trim_is_empty (B.text app.input) = true →
        tr (B.text app.input) (languageAt app.left_language).code
            (languageAt app.right_language).code = .error message →
        B.text (nativeize_both B tr app).fst.output = B.text app.output) ∧
      (trim_is_empty (B.text app.input) = true →
        B.text (nativeize_both B tr app).fst.output = B.text app.output) ∧
      (∀ translated, ¬trim_is_empty (B.text app.output) = true →
        tr (B.text app.output) (languageAt app.right_language).code
            (languageAt app.left_language).code = .ok translated →
        B.text (nativeize_both B tr app).fst.input = translated) ∧
      (∀ message, ¬trim_is_empty (B.text app.output) = true →
        tr (B.text app.output) (languageAt app.right_language).code
            (languageAt app.left_language).code = .error message →
        B.text (nativeize_both B tr app).fst.input = B.text app.input) ∧
      (trim_is_empty (B.text app.output) = true →
        B.text (nativeize_both B tr app).fst.input = B.text app.input) ∧
      (∀ message, ¬trim_is_empty (B.text app.input) = true →
        tr (B.text app.input) (languageAt app.left_language).code
            (languageAt app.right_language).code = .error message →
        (nativeize_both B tr app).fst.error = some message) ∧
      (∀ message2, (trim_is_empty (B.text app.input) = true ∨
          ∃ translated, tr (B.text app.input) (languageAt app.left_language).code
            (languageAt app.right_language).code = .ok translated) →
        ¬trim_is_empty (B.text app.output) = true →
        tr (B.text app.output) (languageAt app.right_language).code
            (languageAt app.left_language).code = .error message2 →
        (nativeize_both B tr app).fst.error = some message2) ∧
      ((trim_is_empty (B.text app.input) = true ∨
          ∃ translated, tr (B.text app.input) (languageAt app.left_language).code
            (languageAt app.right_language).code = .ok translated) →
        (trim_is_empty (B.text app.output) = true ∨
          ∃ translated, tr (B.text app.output) (languageAt app.right_language).code
            (languageAt app.left_language).code = .ok translated) →
        (nativeize_both B tr app).fst.error = none)) := by
  constructor
  · rintro ⟨h1, h2⟩
    unfold nativeize_both
    rw [if_pos ⟨h1, h2⟩]
  · intro hboth
    by_cases hl : trim_is_empty (B.text app.input) = true <;>
      by_cases hr : trim_is_empty (B.text app.output) = true
    · exact absurd ⟨hl, hr⟩ hboth
    all_goals
      cases hTL : tr (B.text app.input) (languageAt app.left_language).code
        (languageAt app.right_language).code <;>
      cases hTR : tr (B.text app.output) (languageAt app.right_language).code
        (languageAt app.left_language).code <;>
      simp [nativeize_both, hboth, hl, hr, hTL, hTR, htext]

/-- Claim C6, counterexample to the original statement: with a left buffer
containing only a space and an empty right buffer, the buffers are not both
empty, so the claim requires pendingTranslation to be cleared on completion;
the code instead takes the whitespace-only early return and leaves
pendingTranslation set. -/
theorem nativeize_both_counterexample :
    (SimpleOps.text ({ App.new SimpleOps with
        input := " ", pending_translation := true, last_edit := some 5 } :
          AppState String).input ≠ "") ∧
    nativeize_both SimpleOps (fun _ _ _ => Except.error "unavailable")
        { App.new SimpleOps with
            input := " ", pending_translation := true, last_edit := some 5 } =
      ({ App.new SimpleOps with
          input := " ", pending_translation := true, last_edit := some 5 }, []) ∧
    (nativeize_both SimpleOps (fun _ _ _ => Except.error "unavailable")
        { App.new SimpleOps with
            input := " ", pending_translation := true, last_edit := some 5 }).fst.pending_translation = true := by
  decide

theorem nativeize_both_spec_witness :
    ¬(trim_is_empty (SimpleOps.text ({ App.new SimpleOps with
        input := "hello", pending_translation := true, last_edit := some 3 } :
          AppState String).input) = true ∧
      trim_is_empty (SimpleOps.text ({ App.new SimpleOps with
        input := "hello", pending_translation := true, last_edit := some 3 } :
          AppState String).output) = true) ∧
    SimpleOps.text (nativeize_both SimpleOps (fun _ _ _ => Except.ok "hola")
        { App.new SimpleOps with
            input := "hello", pending_translation := true, last_edit := some 3 }).fst.output = "hola" ∧
    SimpleOps.text (nativeize_both SimpleOps (fun _ _ _ => Except.ok "hola")
        { App.new SimpleOps with
            input := "hello", pending_translation := true, last_edit := some 3 }).fst.input = "hello" ∧
    (nativeize_both SimpleOps (fun _ _ _ => Except.ok "hola")
        { App.new SimpleOps with
            input := "hello", pending_translation := true, last_edit := some 3 }).fst.error = none ∧
    (nativeize_both SimpleOps (fun _ _ _ => Except.ok "hola")
        { App.new SimpleOps with
            input := "hello", pending_translation := true, last_edit := some 3 }).fst.pending_translation = false ∧
    (nativeize_both SimpleOps (fun _ _ _ => Except.ok "hola")
        { App.new SimpleOps with
            input := "hello", pending_translation := true, last_edit := some 3 }).fst.last_edit = none := by
  have h := (nativeize_both_spec SimpleOps (fun _ _ _ => Except.ok "hola")
    { App.new SimpleOps with
        input := "hello", pending_translation := true, last_edit := some 3 }
    (fun _ => rfl)).2 (by decide)
  exact ⟨by decide, h.2.2.2.1 "hola" (by decide) rfl,
    h.2.2.2.2.2.2.2.2.1 (by decide),
    h.2.2.2.2.2.2.2.2.2.2.2 (Or.inr ⟨"hola", rfl⟩) (Or.inl (by decide)),
    h.1, h.2.1⟩

/-- Claim C9: every operation that arms the translation cycle — the
clear-active-pane chord, a committed language-picker selection, and a key
event that changes the active pane's buffer text — also sets lastError to
None at arming time (together with pendingTranslation and the fresh
timestamp), so a previously displayed error disappears before any new
translation attempt. -/
theorem arming_clears_error {σ : Type} (B : BufferOps σ) :
    (∀ (app : AppState σ) (now : Nat) (key : KeyEvent),
      app.picker = none → key.kind = .press →
      key.code = .char 'r' → key.modifiers.ctrl = true →
      (App.handle_key B now key app).fst.error = none ∧
      (App.handle_key B now key app).fst.pending_translation = true ∧
      (App.handle_key B now key app).fst.last_edit = some now) ∧
    (∀ (app : AppState σ) (now : Nat) (key : KeyEvent) (p : LanguagePicker) (j : Nat),
      app.picker = some p → key.kind = .press → key.code = .enter →
      (filtered_language_indices p.query).get? p.selected = some j →
      (App.handle_key B now key app).fst.error = none ∧
      (App.handle_key B now key app).fst.pending_translation = true ∧
      (App.handle_key B now key app).fst.last_edit = some now) ∧
    (∀ (app : AppState σ) (now : Nat) (key : KeyEvent),
      app.picker = none → key.kind = .press →
      ¬(key.code = .char 'c' ∧ key.modifiers.ctrl = true) →
      ¬(key.code = .char 'h' ∧ key.modifiers.ctrl = true) →
      ¬(key.code = .char 'l' ∧ key.modifiers.ctrl = true) →
      ¬(key.code = .char 'n' ∧ key.modifiers.ctrl = true) →
      ¬(key.code = .char 'r' ∧ key.modifiers.ctrl = true) →
      ¬key.code = KeyCode.tab →
      ¬(key.code = KeyCode.backspace ∧ key.modifiers.ctrl = true) →
      app.active = .left →
      ¬(B.text app.input =
        B.text (Vim.transition B app.left_vim (textarea_input_from_key key) app.input).snd) →
      (App.handle_key B now key app).fst.error = none ∧
      (App.handle_key B now key app).fst.pending_translation = true ∧
      (App.handle_key B now key app).fst.last_edit = some now) ∧
    (∀ (app : AppState σ) (now : Nat) (key : KeyEvent),
      app.picker = none → key.kind = .press →
      ¬(key.code = .char 'c' ∧ key.modifiers.ctrl = true) →
      ¬(key.code = .char 'h' ∧ key.modifiers.ctrl = true) →
      ¬(key.code = .char 'l' ∧ key.modifiers.ctrl = true) →
      ¬(key.code = .char 'n' ∧ key.modifiers.ctrl = true) →
      ¬(key.code = .char 'r' ∧ key.modifiers.ctrl = true) →
      ¬key.code = KeyCode.tab →
      ¬(key.code = KeyCode.backspace ∧ key.modifiers.ctrl = true) →
      app.active = .right →
      ¬(B.text app.output =
        B.text (Vim.transition B app.right_vim (textarea_input_from_key key) app.output).snd) →
      (App.handle_key B now key app).fst.error = none ∧
      (App.handle_key B now key app).fst.pending_translation = true ∧
      (App.handle_key B now key app).fst.last_edit = some now) := by
  refine ⟨?_, ?_, ?_, ?_⟩
  · intro app now key hpk hkind hcode hctrl
    unfold App.handle_key
    rw [if_neg (by simp [hkind]), if_neg (by simp [hpk]), if_neg (by simp [hcode]),
      if_neg (by simp [hcode]), if_neg (by simp [hcode]), if_neg (by simp [hcode]),
      if_pos ⟨hcode, hctrl⟩]
    exact ⟨rfl, rfl, rfl⟩
  · intro app now key p j hpk hkind hcode hget
    obtain ⟨code, mods, kind⟩ := key
    dsimp only at hkind hcode
    subst hkind
    subst hcode
    unfold App.handle_key
    rw [if_neg (by simp), if_pos (by simp [hpk])]
    unfold App.handle_picker_key
    rw [hpk]
    dsimp only
    rw [if_neg (by simp)]
    dsimp only
    rw [hget]
    exact ⟨rfl, rfl, rfl⟩
  · intro app now key hpk hkind h3 h4 h5 h6 h7 h8 h9 happ hmod
    unfold App.handle_key
    rw [if_neg (by simp [hkind]), if_neg (by simp [hpk]), if_neg h3, if_neg h4,
      if_neg h5, if_neg h6, if_neg h7, if_neg h8, if_neg h9]
    dsimp only
    rw [happ]
    cases hv : Vim.transition B app.left_vim (textarea_input_from_key key) app.input with
    | mk t ta =>
      rw [hv] at hmod
      dsimp only at hmod
      dsimp only
      split
      · rename_i hcontra
        exact absurd hcontra hmod
      · exact ⟨rfl, rfl, rfl⟩
  · intro app now key hpk hkind h3 h4 h5 h6 h7 h8 h9 happ hmod
    unfold App.handle_key
    rw [if_neg (by simp [hkind]), if_neg (by simp [hpk]), if_neg h3, if_neg h4,
      if_neg h5, if_neg h6, if_neg h7, if_neg h8, if_neg h9]
    dsimp only
    rw [happ]
    cases hv : Vim.transition B app.right_vim (textarea_input_from_key key) app.output with
    | mk t ta =>
      rw [hv] at hmod
      dsimp only at hmod
      dsimp only
      split
      · rename_i hcontra
        exact absurd hcontra hmod
      · exact ⟨rfl, rfl, rfl⟩

theorem arming_clears_error_witness :
    ((App.handle_key SimpleOps 7 ⟨.char 'r', ⟨true, false, false⟩, .press⟩
        (App.new SimpleOps)).fst.error = none ∧
      (App.handle_key SimpleOps 7 ⟨.char 'r', ⟨true, false, false⟩, .press⟩
        (App.new SimpleOps)).fst.pending_translation = true ∧
      (App.handle_key SimpleOps 7 ⟨.char 'r', ⟨true, false, false⟩, .press⟩
        (App.new SimpleOps)).fst.last_edit = some 7) ∧
    ((App.handle_key SimpleOps 8 ⟨.enter, ⟨false, false, false⟩, .press⟩
        { App.new SimpleOps with picker := some ⟨.left, "", 0⟩ }).fst.error = none ∧
      (App.handle_key SimpleOps 8 ⟨.enter, ⟨false, false, false⟩, .press⟩
        { App.new SimpleOps with picker := some ⟨.left, "", 0⟩ }).fst.pending_translation = true ∧
      (App.handle_key SimpleOps 8 ⟨.enter, ⟨false, false, false⟩, .press⟩
        { App.new SimpleOps with picker := some ⟨.left, "", 0⟩ }).fst.last_edit = some 8) ∧
    ((App.handle_key SimpleOps 9 ⟨.char 'z', ⟨false, false, false⟩, .press⟩
        { App.new SimpleOps with left_vim := ⟨.insert, Input.default⟩ }).fst.error = none ∧
      (App.handle_key SimpleOps 9 ⟨.char 'z', ⟨false, false, false⟩, .press⟩
        { App.new SimpleOps with left_vim := ⟨.insert, Input.default⟩ }).fst.pending_translation = true ∧
      (App.handle_key SimpleOps 9 ⟨.char 'z', ⟨false, false, false⟩, .press⟩
        { App.new SimpleOps with left_vim := ⟨.insert, Input.default⟩ }).fst.last_edit = some 9) :=
  ⟨(arming_clears_error SimpleOps).1 (App.new SimpleOps) 7
      ⟨.char 'r', ⟨true, false, false⟩, .press⟩ rfl rfl rfl rfl,
    (arming_clears_error SimpleOps).2.1 { App.new SimpleOps with picker := some ⟨.left, "", 0⟩ }
      8 ⟨.enter, ⟨false, false, false⟩, .press⟩ ⟨.left, "", 0⟩ 0 rfl rfl rfl (by decide),
    (arming_clears_error SimpleOps).2.2.1 { App.new SimpleOps with left_vim := ⟨.insert, Input.default⟩ }
      9 ⟨.char 'z', ⟨false, false, false⟩, .press⟩ rfl rfl (by decide) (by decide) (by decide)
      (by decide) (by decide) (by decide) (by decide) rfl (by decide)⟩

theorem utf8_go_append (l : List Char) (c : Char) :
    String.utf8ByteSize.go (l ++ [c]) = String.utf8ByteSize.go l + c.utf8Size := by
  induction l with
  | nil => simp [String.utf8ByteSize.go]
  | cons b bs ih =>
    simp only [List.cons_append, String.utf8ByteSize.go, List.append_eq, ih]
    omega

theorem utf8ByteSize_push (s : String) (c : Char) :
    (s.push c).utf8ByteSize = s.utf8ByteSize + c.utf8Size := by
  cases s with
  | mk data => exact utf8_go_append data c

theorem utf8_go_dropLast (l : List Char) :
    String.utf8ByteSize.go l.dropLast ≤ String.utf8ByteSize.go l := by
  induction l with
  | nil => exact le_refl _
  | cons b bs ih =>
    cases bs with
    | nil => simp [String.utf8ByteSize.go]
    | cons d ds =>
      simp only [List.dropLast, String.utf8ByteSize.go]
      simp only [String.utf8ByteSize.go] at ih
      omega

theorem utf8ByteSize_string_pop (s : String) :
    (string_pop s).utf8ByteSize ≤ s.utf8ByteSize := by
  cases s with
  | mk data => exact utf8_go_dropLast data

theorem write_target_picker {σ : Type} (B : BufferOps σ) (app : AppState σ) (s : String) :
    (write_target B app s).picker = app.picker := by
  unfold write_target
  cases app.active <;> rfl

theorem query_bound_picker {σ : Type} (now : Nat) (key : KeyEvent) (app : AppState σ)
    (h : ∀ p, app.picker = some p → p.query.utf8ByteSize ≤ 35) :
    ∀ p, (App.handle_picker_key now key app).fst.picker = some p →
      p.query.utf8ByteSize ≤ 35 := by
  unfold App.handle_picker_key
  cases hpk : app.picker with
  | none => exact h
  | some picker0 =>
    have hb := h picker0 hpk
    dsimp only
    by_cases hc : key.code = KeyCode.char 'c' ∧ key.modifiers.ctrl = true
    · rw [if_pos hc]; exact h
    · rw [if_neg hc]
      split
      · intro p hp
        exact Option.noConfusion hp
      · intro p hp
        dsimp only at hp
        split at hp
        · exact Option.noConfusion hp
        · exact Option.noConfusion hp
      · intro p hp
        dsimp only at hp
        split at hp
        · injection hp with hp2
          subst hp2
          exact hb
        · exact h p hp
      · intro p hp
        dsimp only at hp
        split at hp
        · injection hp with hp2
          subst hp2
          exact hb
        · exact h p hp
      · intro p hp
        dsimp only at hp
        injection hp with hp2
        subst hp2
        exact le_trans (utf8ByteSize_string_pop picker0.query) hb
      · intro p hp
        dsimp only at hp
        split at hp
        · rename_i hcond
          injection hp with hp2
          subst hp2
          dsimp only
          rw [utf8ByteSize_push]
          have h4 := Char.utf8Size_le_four ‹Char›
          have h32 := hcond.2
          omega
        · exact h p hp
      · intro p hp
        exact h p hp

theorem query_bound_handle_key {σ : Type} (B : BufferOps σ) (now : Nat) (key : KeyEvent)
    (app : AppState σ)
    (h : ∀ p, app.picker = some p → p.query.utf8ByteSize ≤ 35) :
    ∀ p, (App.handle_key B now key app).fst.picker = some p →
      p.query.utf8ByteSize ≤ 35 := by
  rcases handle_key_characterization B now key app with
    hc | hc | hc | hc | hc | hc | ⟨app2, ⟨_, _, _, hpk2⟩, hc | hc⟩ <;> rw [hc]
  · exact h
  · exact query_bound_picker now key app h
  · exact h
  · intro p hp
    injection hp with hp2
    subst hp2
    simp [String.utf8ByteSize, String.utf8ByteSize.go]
  · intro p hp
    injection hp with hp2
    subst hp2
    simp [String.utf8ByteSize, String.utf8ByteSize.go]
  · exact h
  · intro p hp
    exact h p (hpk2 ▸ hp)
  · intro p hp
    exact h p (hpk2 ▸ hp)

theorem query_bound_maybe {σ : Type} (B : BufferOps σ) (tr : Translator) (now : Nat)
    (app : AppState σ)
    (h : ∀ p, app.picker = some p → p.query.utf8ByteSize ≤ 35) :
    ∀ p, (maybe_translate B tr now app).fst.picker = some p →
      p.query.utf8ByteSize ≤ 35 := by
  unfold maybe_translate
  dsimp only
  repeat' split
  all_goals first
    | exact h
    | (intro p hp
       exact h p ((write_target_picker B app _) ▸ hp))

theorem query_bound_nativeize {σ : Type} (B : BufferOps σ) (tr : Translator)
    (app : AppState σ)
    (h : ∀ p, app.picker = some p → p.query.utf8ByteSize ≤ 35) :
    ∀ p, (nativeize_both B tr app).fst.picker = some p →
      p.query.utf8ByteSize ≤ 35 := by
  unfold nativeize_both
  dsimp only
  repeat' split
  all_goals exact h

theorem query_bound_handle_event {σ : Type} (B : BufferOps σ) (tr : Translator)
    (now : Nat) (key : KeyEvent) (app : AppState σ)
    (h : ∀ p, app.picker = some p → p.query.utf8ByteSize ≤ 35) :
    ∀ p, (handle_event B tr now key app).picker = some p →
      p.query.utf8ByteSize ≤ 35 := by
  unfold handle_event
  cases hk : App.handle_key B now key app with
  | mk app2 act =>
    have h2 := query_bound_handle_key B now key app h
    rw [hk] at h2
    cases act
    · exact h2
    · exact h2
    · exact query_bound_nativeize B tr app2 h2

/-- Claim C10 (amended): while the picker is open, a character keystroke
(other than the quit chord) appends to the query exactly when the character
is not a control character and the query's current UTF-8 byte length is
strictly less than 32, resetting selectedIndex to 0; otherwise query and
selectedIndex are unchanged.  Because the appended character may occupy up to
four bytes, the byte length of the query in any reachable state is bounded by
35 — it can exceed 32. -/
theorem picker_query_bound {σ : Type} (B : BufferOps σ) :
    (∀ (app : AppState σ) (p : LanguagePicker) (c : Char) (mods : KeyModifiers) (now : Nat),
      app.picker = some p → ¬(c = 'c' ∧ mods.ctrl = true) →
      App.handle_key B now ⟨.char c, mods, .press⟩ app =
        (if ¬rust_is_control c = true ∧ p.query.utf8ByteSize < 32 then
          { app with picker := some ⟨p.side, p.query.push c, 0⟩ }
        else app, .none)) ∧
    (∀ app : AppState σ, Reachable B app →
      ∀ p, app.picker = some p → p.query.utf8ByteSize ≤ 35) := by
  constructor
  · intro app p c mods now hpk hcc
    unfold App.handle_key
    rw [if_neg (by simp), if_pos (by simp [hpk])]
    unfold App.handle_picker_key
    rw [hpk]
    dsimp only
    rw [if_neg (by simpa using hcc)]
  · intro app hr
    induction hr with
    | init => intro p hp; exact Option.noConfusion hp
    | key app k now tr _ ih => exact query_bound_handle_event B tr now k app ih
    | tick app now tr _ ih => exact query_bound_maybe B tr now app ih

theorem picker_query_bound_witness :
    ({ App.new SimpleOps with picker := some ⟨.left, "ab", 0⟩ } :
        AppState String).picker = some ⟨.left, "ab", 0⟩ ∧
    ¬(('x' : Char) = 'c' ∧ (⟨false, false, false⟩ : KeyModifiers).ctrl = true) ∧
    App.handle_key SimpleOps 0 ⟨.char 'x', ⟨false, false, false⟩, .press⟩
        { App.new SimpleOps with picker := some ⟨.left, "ab", 0⟩ } =
      ({ App.new SimpleOps with picker := some ⟨.left, "abx", 0⟩ }, .none) ∧
    (∀ p, (handle_event SimpleOps (fun _ _ _ => Except.error "unavailable") 0
        ⟨.char 'h', ⟨true, false, false⟩, .press⟩ (App.new SimpleOps)).picker = some p →
      p.query.utf8ByteSize ≤ 35) :=
  ⟨rfl, by decide, by
    have h := (picker_query_bound SimpleOps).1
      { App.new SimpleOps with picker := some ⟨.left, "ab", 0⟩ } ⟨.left, "ab", 0⟩
      'x' ⟨false, false, false⟩ 0 rfl (by decide)
    rw [h]
    rfl,
    (picker_query_bound SimpleOps).2 _ (Reachable.key _ _ 0 _ Reachable.init)⟩

/-- Claim C10, counterexample to the original statement: with a 31-byte query
(31 ASCII characters) the guard `len() < 32` still allows an append, and
pushing the two-byte character `é` yields a 33-byte query — the query length
does exceed the claimed bound of 32. -/
theorem picker_query_bound_counterexample :
    ("aaaaaaaaaaaaaaaaaaaaaaaaaaaaaaa" : String).utf8ByteSize = 31 ∧
    ((App.handle_key SimpleOps 0 ⟨.char 'é', ⟨false, false, false⟩, .press⟩
        { App.new SimpleOps with
            picker := some ⟨.left, "aaaaaaaaaaaaaaaaaaaaaaaaaaaaaaa", 0⟩ }).fst.picker.map
      (fun p => p.query.utf8ByteSize)) = some 33 ∧ ¬(33 ≤ 32) := by decide

end Ptrui
